import Mathlib

/-!
Verification development for the `web-china-holidays` repository.

The repository is a small TypeScript data pipeline: it fetches an upstream
ICS holiday feed (with an in-memory TTL cache), parses it into normalized
`CalendarEvent` records, computes supplementary holidays (fixed-date,
floating-date and lunar-calendar based), merges and deduplicates the two
sources, splits multi-day events into daily entries, and serializes the
result back to ICS.

This file shallowly embeds the pipeline's source files
(`src/lib/ics.ts`, `src/lib/extra-holidays.ts`, `src/lib/lunar-calendar.ts`,
`src/lib/cache.ts`) as executable Lean definitions and proves the claimed
properties about them.

Modelling conventions:
* JavaScript `Date` values are modelled as day numbers (days since the Unix
  epoch 1970-01-01), with the standard civil-calendar conversions
  `daysFromCivil` / `civilFromDays`; the process is assumed to run with a
  UTC local time zone, so `new Date("YYYY-MM-DD")`, `getFullYear`,
  `getMonth`, `getDate`, `setDate(+1)` and `getDay` all act on that day
  number.
* JavaScript numbers appearing as years or milliseconds are modelled as
  `Int`; template interpolation `${n}` is modelled by `intStr`.
* The external `lunar-javascript` library (the lunar-to-solar conversion
  used by `lunarToSolar`) is not part of the repository; functions that
  call it take the conversion as an explicit argument
  `lib : Int → Nat → Nat → Option String`, where `none` models the library
  throwing on an invalid lunar date.
* `JS Map` insertion-order semantics are modelled by an association list
  (`jsMapSet` keeps the position of an overwritten key, appends fresh
  keys at the end).
-/

namespace WebChinaHolidays

/-! ## Decimal rendering of numbers (JS template interpolation) -/

/-- The decimal digit character for `n < 10` (models JS digit rendering). -/
def digitCh (n : Nat) : Char := Char.ofNat (48 + n)

/-- Decimal digits with explicit fuel (the fuel only bounds the recursion
depth; `n + 1` is always enough since `n / 10 < n` for `n ≥ 10`). -/
def natCharsCore : Nat → Nat → List Char
  | 0, _ => []
  | fuel + 1, n =>
    if n < 10 then [digitCh n] else natCharsCore fuel (n / 10) ++ [digitCh (n % 10)]

/-- Decimal digits of a natural number, most significant first
(models JS `String(n)` for a nonnegative integer `n`). -/
def natChars (n : Nat) : List Char := natCharsCore (n + 1) n

/-- JS `String(n)` for a natural number. -/
def natStr (n : Nat) : String := ⟨natChars n⟩

/-- JS `String(n)` for an integer (template interpolation `${n}`). -/
def intStr (n : Int) : String :=
  if n < 0 then "-" ++ natStr n.natAbs else natStr n.toNat

/-- JS `String(n).padStart(2, '0')` for a nonnegative integer. -/
def pad2 (n : Int) : String :=
  if n.natAbs < 10 ∧ 0 ≤ n then "0" ++ intStr n else intStr n

/-! ## Civil calendar arithmetic

Day numbers count days since 1970-01-01.  `daysFromCivil`/`civilFromDays`
are the standard era-based conversions between (year, month, day) civil
dates and day numbers; they model the JS `Date` engine's calendar. -/

/-- Day number (days since 1970-01-01) of the civil date `y-m-d`. -/
def daysFromCivil (y m d : Int) : Int :=
  let y := if m ≤ 2 then y - 1 else y
  let era := (if 0 ≤ y then y else y - 399) / 400
  let yoe := y - era * 400
  let doy := (153 * (if 2 < m then m - 3 else m + 9) + 2) / 5 + d - 1
  let doe := yoe * 365 + yoe / 4 - yoe / 100 + doy
  era * 146097 + doe - 719468

/-- Civil date `(y, m, d)` of a day number (days since 1970-01-01). -/
def civilFromDays (z0 : Int) : Int × Int × Int :=
  let z := z0 + 719468
  let era := (if 0 ≤ z then z else z - 146096) / 146097
  let doe := z - era * 146097
  let yoe := (doe - doe / 1460 + doe / 36524 - doe / 146096) / 365
  let y := yoe + era * 400
  let doy := doe - (365 * yoe + yoe / 4 - yoe / 100)
  let mp := (5 * doy + 2) / 153
  let d := doy - (153 * mp + 2) / 5 + 1
  let m := if mp < 10 then mp + 3 else mp - 9
  (if m ≤ 2 then y + 1 else y, m, d)

/-- Model of JS `Date.prototype.getDay` on a day number:
weekday with Sunday = 0 (1970-01-01 was a Thursday = 4). -/
def jsGetDay (z : Int) : Int := (z + 4) % 7

/-- Number of days in a month of the civil calendar. -/
def daysInMonth (y m : Int) : Int :=
  if m = 2 then (if y % 4 = 0 ∧ (y % 100 ≠ 0 ∨ y % 400 = 0) then 29 else 28)
  else if m = 4 ∨ m = 6 ∨ m = 9 ∨ m = 11 then 30 else 31

/-! ## Canonical date strings -/

/-- Whether a string has the canonical `YYYY-MM-DD` shape
(four digits, dash, two digits, dash, two digits). -/
def canonicalShape (s : String) : Bool :=
  match s.data with
  | [y1, y2, y3, y4, h1, m1, m2, h2, d1, d2] =>
    y1.isDigit && y2.isDigit && y3.isDigit && y4.isDigit && h1 == '-' &&
    m1.isDigit && m2.isDigit && h2 == '-' && d1.isDigit && d2.isDigit
  | _ => false

/-- Numeric value of a digit character. -/
def digitVal (c : Char) : Nat := c.toNat - 48

/-- Model of JS `new Date(s)` on a string, as a day number: the engine
accepts the canonical `YYYY-MM-DD` form (parsed as UTC midnight) when it
denotes a real calendar date, and yields an invalid date (`none`, i.e. NaN
time value) otherwise. -/
def parseYMD (s : String) : Option Int :=
  match s.data with
  | [y1, y2, y3, y4, h1, m1, m2, h2, d1, d2] =>
    if (y1.isDigit && y2.isDigit && y3.isDigit && y4.isDigit && h1 == '-' &&
        m1.isDigit && m2.isDigit && h2 == '-' && d1.isDigit && d2.isDigit) then
      let y : Int := Int.ofNat (digitVal y1 * 1000 + digitVal y2 * 100 + digitVal y3 * 10 + digitVal y4)
      let m : Int := Int.ofNat (digitVal m1 * 10 + digitVal m2)
      let d : Int := Int.ofNat (digitVal d1 * 10 + digitVal d2)
      if 1 ≤ m ∧ m ≤ 12 ∧ 1 ≤ d ∧ d ≤ daysInMonth y m then
        some (daysFromCivil y m d)
      else none
    else none
  | _ => none

/-- Embedding of `formatDateString(date)` (src/lib/ics.ts): renders a JS
`Date` (modelled as a day number) as `${year}-${pad2 month}-${pad2 day}`. -/
def formatDateString (z : Int) : String :=
  let c := civilFromDays z
  intStr c.1 ++ "-" ++ pad2 c.2.1 ++ "-" ++ pad2 c.2.2

/-! ## Data model (src/lib/ics.ts, src/lib/extra-holidays.ts) -/

/-- Provenance of an event: the upstream iCloud feed or the supplementary
holiday catalog (`source: 'icloud' | 'extra'`). -/
inductive EvSource where
  | icloud : EvSource
  | extra : EvSource
deriving DecidableEq, Repr

/-- Embedding of the `CalendarEvent` interface (src/lib/ics.ts).
Optional TS fields become `Option`; `isHoliday`/`isWorkday` are the
"day off" / "makeup workday" flags. -/
structure CalendarEvent where
  uid : String
  summary : String
  date : String
  endDate : Option String := none
  description : Option String := none
  isHoliday : Option Bool := none
  isWorkday : Option Bool := none
  category : Option String := none
  source : EvSource
deriving DecidableEq, Repr

/-- Embedding of the `Holiday` interface (src/lib/extra-holidays.ts). -/
structure Holiday where
  name : String
  date : String
  category : String
  description : Option String := none
deriving DecidableEq, Repr

/-- JS truthiness of an optional boolean field (`if (event.isHoliday)`). -/
def truthy (o : Option Bool) : Bool := o.getD false

/-! ## src/lib/lunar-calendar.ts -/

/-- The five lunar festival keys accepted by `getLunarFestivalDate`. -/
inductive Festival where
  | qixi : Festival
  | laba : Festival
  | xiaonian_north : Festival
  | xiaonian_south : Festival
  | longtaitou : Festival
deriving DecidableEq, Repr

/-- The `festivals` configuration table inside `getLunarFestivalDate`:
the fixed lunar (month, day) pair of each festival. -/
def festivalConfig : Festival → Nat × Nat
  | .qixi => (7, 7)
  | .laba => (12, 8)
  | .xiaonian_north => (12, 23)
  | .xiaonian_south => (12, 24)
  | .longtaitou => (2, 2)

/-- Embedding of `getLunarFestivalDate(festival, year)`
(src/lib/lunar-calendar.ts).  `lib` is the external `lunar-javascript`
conversion (`lunarToSolar` without its try/catch): `lib y m d` is the solar
`YYYY-MM-DD` string for lunar date `y-m-d`, or `none` when the library
throws; the surrounding try/catch turns a throw into `null`.  For
twelfth-month festivals the lunar year `year - 1` is used. -/
def getLunarFestivalDate (lib : Int → Nat → Nat → Option String)
    (festival : Festival) (year : Int) : Option String :=
  let config := festivalConfig festival
  let lunarYear := if config.1 = 12 then year - 1 else year
  lib lunarYear config.1 config.2

/-- Embedding of `getThanksgivingDate(year)` (src/lib/lunar-calendar.ts):
the 4th Thursday of November, via the weekday of November 1st. -/
def getThanksgivingDate (year : Int) : String :=
  let dayOfWeek := jsGetDay (daysFromCivil year 11 1)
  let firstThursday := if dayOfWeek ≤ 4 then 1 + (4 - dayOfWeek) else 1 + (11 - dayOfWeek)
  let thanksgiving := firstThursday + 21
  intStr year ++ "-11-" ++ pad2 thanksgiving

/-! ## src/lib/extra-holidays.ts -/

/-- Embedding of `getFixedHolidays(year)`. -/
def getFixedHolidays (year : Int) : List Holiday :=
  [ { name := "情人节", date := intStr year ++ "-02-14", category := "western",
      description := some "西方情人节" },
    { name := "白色情人节", date := intStr year ++ "-03-14", category := "western",
      description := some "日韩传统回礼日" },
    { name := "愚人节", date := intStr year ++ "-04-01", category := "western",
      description := some "整蛊玩笑日" },
    { name := "万圣节", date := intStr year ++ "-10-31", category := "western",
      description := some "西方鬼节" },
    { name := "平安夜", date := intStr year ++ "-12-24", category := "western",
      description := some "圣诞节前夕" },
    { name := "圣诞节", date := intStr year ++ "-12-25", category := "western",
      description := some "西方圣诞节" },
    { name := "520", date := intStr year ++ "-05-20", category := "internet",
      description := some "\"我爱你\"谐音日" },
    { name := "双11购物节", date := intStr year ++ "-11-11", category := "internet",
      description := some "光棍节/购物狂欢节" },
    { name := "双12购物节", date := intStr year ++ "-12-12", category := "internet",
      description := some "年终购物节" },
    { name := "妇女节", date := intStr year ++ "-03-08", category := "professional",
      description := some "国际妇女节" },
    { name := "青年节", date := intStr year ++ "-05-04", category := "professional",
      description := some "五四青年节" },
    { name := "儿童节", date := intStr year ++ "-06-01", category := "professional",
      description := some "国际儿童节" },
    { name := "教师节", date := intStr year ++ "-09-10", category := "professional",
      description := some "中国教师节" } ]

/-- Embedding of `getFloatingHolidays(year)`. -/
def getFloatingHolidays (year : Int) : List Holiday :=
  [ { name := "感恩节", date := getThanksgivingDate year, category := "western",
      description := some "美国感恩节" } ]

/-- Embedding of `getLunarHolidays(year)`: each festival is included only
when the resolver succeeds. -/
def getLunarHolidays (lib : Int → Nat → Nat → Option String) (year : Int) : List Holiday :=
  (match getLunarFestivalDate lib .qixi year with
   | some d => [{ name := "七夕节", date := d, category := "traditional",
                  description := some "中国情人节" : Holiday }]
   | none => []) ++
  (match getLunarFestivalDate lib .laba year with
   | some d => [{ name := "腊八节", date := d, category := "traditional",
                  description := some "农历腊月初八" : Holiday }]
   | none => []) ++
  (match getLunarFestivalDate lib .xiaonian_north year with
   | some d => [{ name := "小年（北方）", date := d, category := "traditional",
                  description := some "农历腊月二十三" : Holiday }]
   | none => []) ++
  (match getLunarFestivalDate lib .xiaonian_south year with
   | some d => [{ name := "小年（南方）", date := d, category := "traditional",
                  description := some "农历腊月二十四" : Holiday }]
   | none => []) ++
  (match getLunarFestivalDate lib .longtaitou year with
   | some d => [{ name := "龙抬头", date := d, category := "traditional",
                  description := some "农历二月初二" : Holiday }]
   | none => [])

/-- Embedding of `getExtraHolidays(year)`. -/
def getExtraHolidays (lib : Int → Nat → Nat → Option String) (year : Int) : List Holiday :=
  getFixedHolidays year ++ getFloatingHolidays year ++ getLunarHolidays lib year

/-- Embedding of `getExtraHolidaysForYears(startYear, endYear)`:
the `for (let year = startYear; year <= endYear; year++)` loop. -/
def getExtraHolidaysForYears (lib : Int → Nat → Nat → Option String)
    (startYear endYear : Int) : List Holiday :=
  if startYear ≤ endYear then
    getExtraHolidays lib startYear ++ getExtraHolidaysForYears lib (startYear + 1) endYear
  else []
  termination_by (endYear + 1 - startYear).toNat
  decreasing_by omega

/-! ## JS `Map` model

A JS `Map` keyed by strings, as an association list.  `Map.set` keeps the
position of an existing key (insertion-order semantics) and appends a fresh
key at the end; `Map.get` returns the value at a key; `Map.delete` removes
the entry. -/

/-- JS `m.set(k, v)`. -/
def jsMapSet {α : Type} (m : List (String × α)) (k : String) (v : α) :
    List (String × α) :=
  if m.any (fun p => p.1 == k) then
    m.map (fun p => if p.1 == k then (k, v) else p)
  else m ++ [(k, v)]

/-- JS `m.get(k)` (`none` models `undefined`). -/
def jsMapGet {α : Type} (m : List (String × α)) (k : String) : Option α :=
  (m.find? (fun p => p.1 == k)).map (fun p => p.2)

/-- JS `m.delete(k)`. -/
def jsMapDelete {α : Type} (m : List (String × α)) (k : String) :
    List (String × α) :=
  m.filter (fun p => ¬ p.1 == k)

/-! ## src/lib/cache.ts

The `Cache` class stores `CacheItem` entries in a private `Map`; time
(`Date.now()`, milliseconds) is passed explicitly as `now`. -/

/-- Embedding of the `CacheItem<T>` interface (src/lib/cache.ts). -/
structure CacheItem (α : Type) where
  data : α
  expiresAt : Int
deriving DecidableEq, Repr

/-- Embedding of `Cache.set(key, data, ttl)`: stores the value with
expiration `now + ttl`, overwriting any existing entry. -/
def cacheSet {α : Type} (store : List (String × CacheItem α)) (key : String)
    (data : α) (ttl now : Int) : List (String × CacheItem α) :=
  jsMapSet store key { data := data, expiresAt := now + ttl }

/-- Embedding of `Cache.get(key)` at time `now`: returns the (possibly
`none`) result together with the store after the read (a read of an
expired entry deletes it). -/
def cacheGet {α : Type} (store : List (String × CacheItem α)) (key : String)
    (now : Int) : Option α × List (String × CacheItem α) :=
  match jsMapGet store key with
  | none => (none, store)
  | some item =>
    if item.expiresAt < now then (none, jsMapDelete store key)
    else (some item.data, store)

/-! ## src/lib/ics.ts: fetching -/

/-- Result of a `fetchICSFromURL` call: the returned content (`none` models
a thrown error), the cache store afterwards, and whether a network request
was made. -/
structure FetchResult where
  result : Option String
  store : List (String × CacheItem String)
  networkUsed : Bool
deriving Repr

/-- Embedding of `fetchICSFromURL(url, ttl)` (src/lib/ics.ts).
`net url` models `fetch(url)` followed by `response.text()`: `none` is a
non-ok status or transport failure (a throw), `some content` a success.
The cache is consulted first; note the JS truthiness test `if (cached)`,
under which an empty cached string falls through to the network. -/
def fetchICSFromURL (net : String → Option String)
    (store : List (String × CacheItem String)) (now : Int) (url : String)
    (ttl : Int := 12 * 3600000) : FetchResult :=
  let cacheKey := "ics:" ++ url
  let read := cacheGet store cacheKey now
  match read.1 with
  | some cached =>
    if cached ≠ "" then { result := some cached, store := read.2, networkUsed := false }
    else
      match net url with
      | none => { result := none, store := read.2, networkUsed := true }
      | some content =>
        { result := some content, store := cacheSet read.2 cacheKey content ttl now,
          networkUsed := true }
  | none =>
    match net url with
    | none => { result := none, store := read.2, networkUsed := true }
    | some content =>
      { result := some content, store := cacheSet read.2 cacheKey content ttl now,
        networkUsed := true }

/-! ## src/lib/ics.ts: splitting and merging -/

/-- The `while (current < end)` loop of `splitMultiDayEvent`: pushes one
single-day copy of `event` per day number in `[current, endDay)`. -/
def splitLoop (event : CalendarEvent) (current endDay : Int) (dayIndex : Nat) :
    List CalendarEvent :=
  if current < endDay then
    { event with uid := event.uid ++ "-day" ++ natStr dayIndex,
                 date := formatDateString current, endDate := none }
      :: splitLoop event (current + 1) endDay (dayIndex + 1)
  else []
  termination_by (endDay - current).toNat
  decreasing_by omega

/-- Embedding of `splitMultiDayEvent(event)` (src/lib/ics.ts).
`!event.endDate` is JS-falsy for both a missing and an empty `endDate`.
With a strictly later `endDate`, one event per day of the half-open range
is produced; an unparseable date gives a NaN `Date`, whose comparison is
always false, so the loop body never runs. -/
def splitMultiDayEvent (event : CalendarEvent) : List CalendarEvent :=
  match event.endDate with
  | none => [{ event with endDate := none }]
  | some ed =>
    if ed = "" ∨ event.date = ed then [{ event with endDate := none }]
    else
      match parseYMD event.date, parseYMD ed with
      | some start, some endDay => splitLoop event start endDay 0
      | some _, none => []
      | none, _ => []

/-- Embedding of `holidayToEvent(holiday)` (src/lib/ics.ts). -/
def holidayToEvent (holiday : Holiday) : CalendarEvent :=
  { uid := "extra-" ++ holiday.name ++ "-" ++ holiday.date,
    summary := holiday.name,
    date := holiday.date,
    description := holiday.description,
    category := some holiday.category,
    source := .extra }

/-- The dedup key `` `${event.date}-${event.summary}` `` used by
`mergeEvents`. -/
def eventKey (event : CalendarEvent) : String :=
  event.date ++ "-" ++ event.summary

/-- One `for … of` loop of `mergeEvents`: insert every event into the map
under its key. -/
def insertEvents (m : List (String × CalendarEvent)) (events : List CalendarEvent) :
    List (String × CalendarEvent) :=
  events.foldl (fun m e => jsMapSet m (eventKey e) e) m

/-- Code-point lexicographic order on character lists (the effect of JS
`localeCompare` on the ASCII date strings compared here). -/
def charListLe : List Char → List Char → Bool
  | [], _ => true
  | _ :: _, [] => false
  | a :: as, b :: bs =>
    if a.toNat < b.toNat then true
    else if b.toNat < a.toNat then false
    else charListLe as bs

/-- Comparator of the final sort of `mergeEvents`:
`a.date.localeCompare(b.date) ≤ 0`, i.e. ascending date string order. -/
def dateLe (a b : CalendarEvent) : Prop := charListLe a.date.data b.date.data = true

instance : DecidableRel dateLe :=
  fun a b => inferInstanceAs (Decidable (charListLe a.date.data b.date.data = true))

/-- Embedding of `mergeEvents(icloudEvents, startYear, endYear)`
(src/lib/ics.ts): supplementary events are inserted first, split upstream
events second (overwriting equal keys), and the map's values are sorted by
date.  JS `Array.prototype.sort` is a stable sort; it is modelled by
insertion sort, which is also stable, and any two stable sorts with the
same comparator agree. -/
def mergeEvents (lib : Int → Nat → Nat → Option String)
    (icloudEvents : List CalendarEvent) (startYear endYear : Int) :
    List CalendarEvent :=
  let extraHolidays := getExtraHolidaysForYears lib startYear endYear
  let extraEvents := extraHolidays.map holidayToEvent
  let splitIcloudEvents := icloudEvents.flatMap splitMultiDayEvent
  let eventMap := insertEvents (insertEvents [] extraEvents) splitIcloudEvents
  (eventMap.map (fun p => p.2)).insertionSort dateLe

/-! ## src/lib/ics.ts: serialization -/

/-- The dash-stripping `event.date.replace` with the global dash regex:
delete every dash. -/
def stripDashes (s : String) : String := ⟨s.data.filter (fun c => c ≠ '-')⟩

/-- Embedding of `formatDateToICS(date)` (src/lib/ics.ts) on the UTC
components of the generation instant. -/
def formatDateToICS (y mo d h mi s : Int) : String :=
  intStr y ++ pad2 mo ++ pad2 d ++ "T" ++ pad2 h ++ pad2 mi ++ pad2 s ++ "Z"

/-- The property lines pushed for one event by the `for … of` loop of
`generateICS` (between `BEGIN:VEVENT` and `END:VEVENT`); `stamp` is the
`DTSTAMP` value (`formatDateToICS(new Date())` at generation time). -/
def eventBody (stamp : String) (e : CalendarEvent) : List String :=
  ["UID:" ++ e.uid,
   "DTSTAMP:" ++ stamp,
   "DTSTART;VALUE=DATE:" ++ stripDashes e.date] ++
  (match e.endDate with
   | some ed => ["DTEND;VALUE=DATE:" ++ stripDashes ed]
   | none => []) ++
  ["SUMMARY;LANGUAGE=zh_CN:" ++ e.summary] ++
  (match e.description with
   | some d => ["DESCRIPTION:" ++ d]
   | none => []) ++
  ["CLASS:PUBLIC", "TRANSP:TRANSPARENT"] ++
  (if truthy e.isHoliday then ["X-APPLE-SPECIAL-DAY:WORK-HOLIDAY"]
   else if truthy e.isWorkday then ["X-APPLE-SPECIAL-DAY:ALTERNATE-WORKDAY"]
   else [])

/-- All lines pushed for one event by `generateICS`. -/
def eventLines (stamp : String) (e : CalendarEvent) : List String :=
  "BEGIN:VEVENT" :: eventBody stamp e ++ ["END:VEVENT"]

/-- The complete line list built by `generateICS`. -/
def generateICSLines (events : List CalendarEvent) (calendarName stamp : String) :
    List String :=
  ["BEGIN:VCALENDAR",
   "VERSION:2.0",
   "PRODID:-//Holiday Calendar//CN",
   "CALSCALE:GREGORIAN",
   "X-WR-CALNAME:" ++ calendarName,
   "X-APPLE-LANGUAGE:zh",
   "X-APPLE-REGION:CN"] ++
  events.flatMap (eventLines stamp) ++
  ["END:VCALENDAR"]

/-- JS `lines.join('\r\n')`. -/
def joinCRLF : List String → String
  | [] => ""
  | [s] => s
  | s :: rest => s ++ "\r\n" ++ joinCRLF rest

/-- Embedding of `generateICS(events, calendarName)` (src/lib/ics.ts);
`stamp` models the `DTSTAMP` timestamp taken at call time. -/
def generateICS (events : List CalendarEvent) (calendarName stamp : String) :
    String :=
  joinCRLF (generateICSLines events calendarName stamp)

/-! ## src/lib/ics.ts: parsing

`parseICS` delegates the wire format to the external `ical.js` library.
The library's behaviour on the block-structured calendar text produced by
this pipeline is modelled as a line-based reader: content lines are split
on CRLF, the lines between `BEGIN:VEVENT`/`END:VEVENT` form one event
block, a content line is `NAME[;params]:VALUE`, and property lookup takes
the first line with the given name.  `getFirstPropertyValue('dtstart')` on
a `VALUE=DATE` property is the 8-digit date string, which
`formatICALDate` normalizes. -/

/-- Split a character list into lines at each CRLF pair. -/
def splitLinesAux : List Char → List Char → List String
  | [], acc => [⟨acc.reverse⟩]
  | '\r' :: '\n' :: rest, acc => (⟨acc.reverse⟩ : String) :: splitLinesAux rest []
  | c :: rest, acc => splitLinesAux rest (c :: acc)

/-- Split a string into its CRLF-separated lines. -/
def splitCRLF (s : String) : List String := splitLinesAux s.data []

/-- Name of a content line: the characters before the first `:` or `;`. -/
def propNameChars : List Char → List Char
  | [] => []
  | c :: cs => if c = ':' ∨ c = ';' then [] else c :: propNameChars cs

/-- Value of a content line: the characters after the first `:`. -/
def propValueChars : List Char → List Char
  | [] => []
  | c :: cs => if c = ':' then cs else propValueChars cs

/-- Decompose one content line into (property name, value). -/
def parseProp (line : String) : String × String :=
  (⟨propNameChars line.data⟩, ⟨propValueChars line.data⟩)

/-- First value of a named property in a block
(`getFirstPropertyValue`). -/
def getProp (props : List (String × String)) (name : String) : Option String :=
  (props.find? (fun p => p.1 == name)).map (fun p => p.2)

/-- Collect the `VEVENT` blocks of a line list (the state is `some acc`
inside a block, with the block's lines accumulated in reverse). -/
def collectVevents : List String → Option (List String) → List (List String)
  | [], _ => []
  | l :: rest, none =>
    if l = "BEGIN:VEVENT" then collectVevents rest (some [])
    else collectVevents rest none
  | l :: rest, some acc =>
    if l = "END:VEVENT" then acc.reverse :: collectVevents rest none
    else collectVevents rest (some (l :: acc))

/-- Embedding of `formatICALDate(date)` (src/lib/ics.ts) on a string value:
an 8-character `YYYYMMDD` string is hyphenated, any other string is
returned unchanged. -/
def formatICALDate (s : String) : String :=
  if s.data.length = 8 then
    (⟨s.data.take 4⟩ : String) ++ "-" ++ (⟨(s.data.drop 4).take 2⟩ : String) ++ "-"
      ++ (⟨s.data.drop 6⟩ : String)
  else s

/-- Whether `sub` occurs as a contiguous segment of `l`. -/
def hasInfix (sub : List Char) : List Char → Bool
  | [] => sub.isEmpty
  | c :: cs => sub.isPrefixOf (c :: cs) || hasInfix sub cs

/-- JS `s.includes(sub)`: `sub` occurs as a contiguous substring of `s`. -/
def includesSub (sub s : String) : Bool := hasInfix sub.data s.data

/-- The placeholder for `crypto.randomUUID()`, synthesized when a block has
no (or an empty, hence JS-falsy) `UID`.  The uid never enters the
round-trip tuples, so a fixed placeholder stands in for the random draw. -/
def randomUUID : String := "random-uuid"

/-- Parse one `VEVENT` block (the body of the `for … of` loop of
`parseICS`): a block without `DTSTART` is skipped. -/
def parseVevent (lines : List String) : Option CalendarEvent :=
  let props := lines.map parseProp
  let summary := (getProp props "SUMMARY").getD ""
  let uid := match getProp props "UID" with
             | some u => if u = "" then randomUUID else u
             | none => randomUUID
  match getProp props "DTSTART" with
  | none => none
  | some dtstart =>
    let startDate := formatICALDate dtstart
    let endDate := (getProp props "DTEND").map formatICALDate
    let specialDay := getProp props "X-APPLE-SPECIAL-DAY"
    let isHoliday := specialDay == some "WORK-HOLIDAY" || includesSub "（休）" summary
    let isWorkday := specialDay == some "ALTERNATE-WORKDAY" || includesSub "（班）" summary
    some { uid := uid, summary := summary, date := startDate, endDate := endDate,
           isHoliday := some isHoliday, isWorkday := some isWorkday,
           source := .icloud }

/-- Embedding of `parseICS(icsContent)` (src/lib/ics.ts). -/
def parseICS (icsContent : String) : List CalendarEvent :=
  (collectVevents (splitCRLF icsContent) none).filterMap parseVevent

/-- The `(date, title, isDayOff, isMakeupWorkday)` tuple of an event, with
the optional flags read by JS truthiness. -/
def tupleOf (e : CalendarEvent) : String × String × Bool × Bool :=
  (e.date, e.summary, truthy e.isHoliday, truthy e.isWorkday)

/-- The event that parsing one serialized event block yields (computed, for
the round-trip theorem): the uid survives unless empty, the dates pass
through the compact form, the flags are re-derived from the emitted
special-day marker and from the title markers. -/
def reparsedEvent (e : CalendarEvent) : CalendarEvent :=
  { uid := if e.uid = "" then randomUUID else e.uid,
    summary := e.summary,
    date := formatICALDate (stripDashes e.date),
    endDate := e.endDate.map (fun ed => formatICALDate (stripDashes ed)),
    isHoliday := some (truthy e.isHoliday || includesSub "（休）" e.summary),
    isWorkday := some ((!truthy e.isHoliday && truthy e.isWorkday)
      || includesSub "（班）" e.summary),
    source := .icloud }

/-- Whether a string is free of carriage returns (such a string cannot
split a serialized line). -/
def noCRb (s : String) : Bool := s.data.all (fun c => c ≠ '\r')

/-- Well-formedness of one event for the serialize/parse round trip:
canonical dates, no carriage returns in the text fields, day-off/makeup
flags consistent with the `（休）`/`（班）` title markers, and not both
flags set. -/
def eventOKb (e : CalendarEvent) : Bool :=
  canonicalShape e.date &&
  (match e.endDate with | some ed => canonicalShape ed | none => true) &&
  noCRb e.uid && noCRb e.summary &&
  (match e.description with | some d => noCRb d | none => true) &&
  (!includesSub "（休）" e.summary || truthy e.isHoliday) &&
  (!includesSub "（班）" e.summary || truthy e.isWorkday) &&
  !(truthy e.isHoliday && truthy e.isWorkday)

/-! ## Concrete fixtures used by witnesses and counterexamples -/

/-- The spec's example multi-day event: October 1–4 (exclusive end). -/
def specEventOct : CalendarEvent :=
  { uid := "u1", summary := "国庆节", date := "2024-10-01",
    endDate := some "2024-10-04", source := .icloud }

/-- A lunar library model that always fails (every festival omitted). -/
def noLunarLib : Int → Nat → Nat → Option String := fun _ _ _ => none

/-- The spec's example upstream Valentine's Day event. -/
def valentineUpstream : CalendarEvent :=
  { uid := "up1", summary := "情人节", date := "2024-02-14", source := .icloud }

/-- The catalog's converted Valentine's Day supplementary event for 2024. -/
def valentineExtra : CalendarEvent :=
  holidayToEvent { name := "情人节", date := "2024-02-14", category := "western",
                   description := some "西方情人节" }

/-- The counterexample event: its title contains the literal day-off
marker `（休）` but its day-off flag is unset. -/
def markerEvent : CalendarEvent :=
  { uid := "u", summary := "测试（休）", date := "2024-01-02", source := .icloud }

/-- Round-trip witness event: a flagged day-off holiday whose `endDate`
equals its `date`. -/
def newYearEvent : CalendarEvent :=
  { uid := "w1", summary := "元旦", date := "2024-01-01",
    endDate := some "2024-01-01", isHoliday := some true, source := .icloud }

/-! # Verified properties -/

/-! ## Step equations for the loop-shaped definitions -/

theorem splitLoop_step (event : CalendarEvent) (current endDay : Int) (dayIndex : Nat)
    (h : current < endDay) :
    splitLoop event current endDay dayIndex =
      { event with uid := event.uid ++ "-day" ++ natStr dayIndex,
                   date := formatDateString current, endDate := none }
        :: splitLoop event (current + 1) endDay (dayIndex + 1) := by
  rw [splitLoop]
  simp [h]

theorem splitLoop_stop (event : CalendarEvent) (current endDay : Int) (dayIndex : Nat)
    (h : ¬ current < endDay) :
    splitLoop event current endDay dayIndex = [] := by
  rw [splitLoop]
  simp [h]

theorem getExtraHolidaysForYears_step (lib : Int → Nat → Nat → Option String)
    (startYear endYear : Int) (h : startYear ≤ endYear) :
    getExtraHolidaysForYears lib startYear endYear =
      getExtraHolidays lib startYear ++ getExtraHolidaysForYears lib (startYear + 1) endYear := by
  rw [getExtraHolidaysForYears]
  simp [h]

theorem getExtraHolidaysForYears_stop (lib : Int → Nat → Nat → Option String)
    (startYear endYear : Int) (h : ¬ startYear ≤ endYear) :
    getExtraHolidaysForYears lib startYear endYear = [] := by
  rw [getExtraHolidaysForYears]
  simp [h]

/-! ## JS map lemmas -/

theorem jsMapGet_nil {α : Type} (k : String) :
    jsMapGet ([] : List (String × α)) k = none := rfl

theorem jsMapGet_cons_pos {α : Type} (p : String × α) (rest : List (String × α))
    (k : String) (h : (p.1 == k) = true) : jsMapGet (p :: rest) k = some p.2 := by
  simp only [jsMapGet]
  rw [@List.find?_cons_of_pos _ (fun q => q.1 == k) p rest h]
  rfl

theorem jsMapGet_cons_neg {α : Type} (p : String × α) (rest : List (String × α))
    (k : String) (h : ¬ (p.1 == k) = true) :
    jsMapGet (p :: rest) k = jsMapGet rest k := by
  simp only [jsMapGet]
  rw [@List.find?_cons_of_neg _ (fun q => q.1 == k) p rest h]

theorem jsMapSet_of_any {α : Type} (m : List (String × α)) (k : String) (v : α)
    (ha : m.any (fun q => q.1 == k) = true) :
    jsMapSet m k v = m.map (fun q => if q.1 == k then (k, v) else q) := by
  simp only [jsMapSet, ha, if_true]

theorem jsMapSet_of_not_any {α : Type} (m : List (String × α)) (k : String) (v : α)
    (ha : ¬ m.any (fun q => q.1 == k) = true) :
    jsMapSet m k v = m ++ [(k, v)] := by
  simp [jsMapSet, ha]

theorem get_map_overwrite_hit {α : Type} (m : List (String × α)) (k : String) (v : α)
    (ha : m.any (fun q => q.1 == k) = true) :
    jsMapGet (m.map (fun q => if q.1 == k then (k, v) else q)) k = some v := by
  induction m with
  | nil => cases ha
  | cons p rest ih =>
    rw [List.map_cons]
    by_cases hp : (p.1 == k) = true
    · rw [if_pos hp, jsMapGet_cons_pos _ _ _ (by simp)]
    · rw [if_neg hp, jsMapGet_cons_neg _ _ _ hp]
      apply ih
      rw [List.any_cons] at ha
      simpa [hp] using ha

theorem get_map_overwrite_miss {α : Type} (m : List (String × α)) (k1 k : String)
    (v : α) (hne : k1 ≠ k) :
    jsMapGet (m.map (fun q => if q.1 == k1 then (k1, v) else q)) k = jsMapGet m k := by
  induction m with
  | nil => rfl
  | cons p rest ih =>
    rw [List.map_cons]
    by_cases hp : (p.1 == k1) = true
    · have hp1 : p.1 = k1 := by simpa using hp
      have hk1 : ¬ (k1 == k) = true := by simpa using hne
      rw [if_pos hp, jsMapGet_cons_neg _ _ _ hk1,
        jsMapGet_cons_neg _ _ _ (by simpa [hp1] using hne), ih]
    · rw [if_neg hp]
      by_cases hpk : (p.1 == k) = true
      · rw [jsMapGet_cons_pos _ _ _ hpk, jsMapGet_cons_pos _ _ _ hpk]
      · rw [jsMapGet_cons_neg _ _ _ hpk, jsMapGet_cons_neg _ _ _ hpk, ih]

theorem get_append_single_same {α : Type} (m : List (String × α)) (k : String) (v : α)
    (hm : ∀ p ∈ m, ¬ (p.1 == k) = true) :
    jsMapGet (m ++ [(k, v)]) k = some v := by
  induction m with
  | nil => exact jsMapGet_cons_pos _ _ _ (by simp)
  | cons p rest ih =>
    rw [List.cons_append, jsMapGet_cons_neg _ _ _ (hm p (by simp))]
    exact ih (fun q hq => hm q (by simp [hq]))

theorem get_append_single_ne {α : Type} (m : List (String × α)) (k1 k : String) (v : α)
    (hne : k1 ≠ k) : jsMapGet (m ++ [(k1, v)]) k = jsMapGet m k := by
  induction m with
  | nil =>
    rw [List.nil_append, jsMapGet_cons_neg _ _ _ (by simpa using hne)]
  | cons p rest ih =>
    by_cases hpk : (p.1 == k) = true
    · rw [List.cons_append, jsMapGet_cons_pos _ _ _ hpk, jsMapGet_cons_pos _ _ _ hpk]
    · rw [List.cons_append, jsMapGet_cons_neg _ _ _ hpk, jsMapGet_cons_neg _ _ _ hpk, ih]

theorem jsMapGet_jsMapSet_same {α : Type} (m : List (String × α)) (k : String) (v : α) :
    jsMapGet (jsMapSet m k v) k = some v := by
  by_cases ha : m.any (fun q => q.1 == k) = true
  · rw [jsMapSet_of_any _ _ _ ha]
    exact get_map_overwrite_hit _ _ _ ha
  · rw [jsMapSet_of_not_any _ _ _ ha]
    apply get_append_single_same
    intro p hp
    simp only [List.any_eq_true, not_exists, not_and] at ha
    simpa using ha p hp

theorem jsMapGet_jsMapSet_ne {α : Type} (m : List (String × α)) (k1 k : String) (v : α)
    (hne : k1 ≠ k) : jsMapGet (jsMapSet m k1 v) k = jsMapGet m k := by
  by_cases ha : m.any (fun q => q.1 == k1) = true
  · rw [jsMapSet_of_any _ _ _ ha]
    exact get_map_overwrite_miss _ _ _ _ hne
  · rw [jsMapSet_of_not_any _ _ _ ha]
    exact get_append_single_ne _ _ _ _ hne

theorem mem_of_mem_jsMapSet {α : Type} {m : List (String × α)} {k : String} {v : α}
    {p : String × α} (h : p ∈ jsMapSet m k v) : p ∈ m ∨ p = (k, v) := by
  by_cases ha : m.any (fun q => q.1 == k) = true
  · rw [jsMapSet_of_any _ _ _ ha] at h
    obtain ⟨q, hq, hqe⟩ := List.mem_map.1 h
    by_cases hqk : (q.1 == k) = true
    · right; rw [← hqe, if_pos hqk]
    · left; rw [← hqe, if_neg hqk]; exact hq
  · rw [jsMapSet_of_not_any _ _ _ ha] at h
    rcases List.mem_append.1 h with h1 | h1
    · exact Or.inl h1
    · exact Or.inr (List.mem_singleton.1 h1)

theorem keys_jsMapSet_of_any {α : Type} (m : List (String × α)) (k : String) (v : α)
    (ha : m.any (fun q => q.1 == k) = true) :
    (jsMapSet m k v).map Prod.fst = m.map Prod.fst := by
  rw [jsMapSet_of_any _ _ _ ha, List.map_map]
  apply List.map_congr_left
  intro q _
  by_cases hq : (q.1 == k) = true
  · have h1 : q.1 = k := by simpa using hq
    simp only [Function.comp_apply, if_pos hq]
    exact h1.symm
  · simp only [Function.comp_apply, if_neg hq]

theorem keys_nodup_jsMapSet {α : Type} (m : List (String × α)) (k : String) (v : α)
    (h : (m.map Prod.fst).Nodup) : ((jsMapSet m k v).map Prod.fst).Nodup := by
  by_cases ha : m.any (fun q => q.1 == k) = true
  · rw [keys_jsMapSet_of_any m k v ha]; exact h
  · rw [jsMapSet_of_not_any _ _ _ ha, List.map_append]
    simp only [List.any_eq_true, not_exists, not_and] at ha
    refine List.Nodup.append h (List.nodup_singleton k) ?_
    intro a haa hak
    simp only [List.map_cons, List.map_nil, List.mem_singleton] at hak
    subst hak
    obtain ⟨q, hq, rfl⟩ := List.mem_map.1 haa
    have h2 := ha q hq
    simp at h2

theorem jsMapGet_eq_of_mem {α : Type} {m : List (String × α)}
    (hnd : (m.map Prod.fst).Nodup) {p : String × α} (hp : p ∈ m) :
    jsMapGet m p.1 = some p.2 := by
  induction m with
  | nil => cases hp
  | cons q rest ih =>
    rw [List.map_cons, List.nodup_cons] at hnd
    rcases List.mem_cons.1 hp with rfl | hmem
    · exact jsMapGet_cons_pos _ _ _ (by simp)
    · have hne : ¬ (q.1 == p.1) = true := by
        simp only [beq_iff_eq]
        intro he
        exact hnd.1 (he ▸ List.mem_map_of_mem Prod.fst hmem)
      rw [jsMapGet_cons_neg _ _ _ hne]
      exact ih hnd.2 hmem

theorem countP_key_zero {α : Type} {m : List (String × α)} {k : String}
    (h : ∀ p ∈ m, p.1 ≠ k) : m.countP (fun p => p.1 == k) = 0 := by
  rw [List.countP_eq_zero]
  intro p hp
  simpa using h p hp

theorem countP_key_one {α : Type} {m : List (String × α)} {k : String}
    (hnd : (m.map Prod.fst).Nodup) {v : α} (hget : jsMapGet m k = some v) :
    m.countP (fun p => p.1 == k) = 1 := by
  induction m with
  | nil => simp [jsMapGet_nil] at hget
  | cons q rest ih =>
    rw [List.map_cons, List.nodup_cons] at hnd
    rw [List.countP_cons]
    by_cases hq : (q.1 == k) = true
    · have hq1 : q.1 = k := by simpa using hq
      have hz : rest.countP (fun p => p.1 == k) = 0 := by
        apply countP_key_zero
        intro p hp he
        exact hnd.1 (by rw [hq1, ← he]; exact List.mem_map_of_mem Prod.fst hp)
      simp [hq, hz]
    · rw [jsMapGet_cons_neg _ _ _ hq] at hget
      simp [hq, ih hnd.2 hget]

/-! ## C4 and C7 -/

/-- Claim C4: for every solar year, `getLunarFestivalDate` converts a
festival whose configured lunar month is 12 (laba, xiaonian_north,
xiaonian_south) using lunar year `solarYear - 1`, and a festival whose
lunar month is not 12 (qixi, longtaitou) using lunar year `solarYear`;
instantiating `year := 2024` gives lunar year 2023 for the three
twelfth-month festivals. -/
theorem lunarFestival_month12_uses_previous_lunar_year
    (lib : Int → Nat → Nat → Option String) (year : Int) :
    getLunarFestivalDate lib .laba year = lib (year - 1) 12 8 ∧
    getLunarFestivalDate lib .xiaonian_north year = lib (year - 1) 12 23 ∧
    getLunarFestivalDate lib .xiaonian_south year = lib (year - 1) 12 24 ∧
    getLunarFestivalDate lib .qixi year = lib year 7 7 ∧
    getLunarFestivalDate lib .longtaitou year = lib year 2 2 :=
  ⟨rfl, rfl, rfl, rfl, rfl⟩

/-- Claim C7: for every year, `getThanksgivingDate` returns November `D`
of that year with `D = 1 + ((4 - weekday) mod 7) + 21`, `weekday` being
the 0(Sunday)–6 numbering of November 1st; and Thanksgiving 2024 resolves
to `2024-11-28`. -/
theorem getThanksgivingDate_fourth_thursday (year : Int) :
    getThanksgivingDate year =
      intStr year ++ "-11-" ++
        pad2 (1 + (4 - jsGetDay (daysFromCivil year 11 1)) % 7 + 21) ∧
    getThanksgivingDate 2024 = "2024-11-28" := by
  constructor
  · have key : ∀ w : Int, 0 ≤ w → w < 7 →
        (if w ≤ 4 then 1 + (4 - w) else 1 + (11 - w)) + 21 = 1 + (4 - w) % 7 + 21 := by
      intro w h1 h2
      split_ifs with hle <;> omega
    simp only [getThanksgivingDate]
    rw [key (jsGetDay (daysFromCivil year 11 1)) (by unfold jsGetDay; omega)
      (by unfold jsGetDay; omega)]
  · decide

/-! ## C5: cache get/set -/

/-- Claim C5: `Cache.get` returns absent iff no entry exists for the key or
the stored entry's expiration instant has passed; a read finding an expired
entry removes it (lazy expiration); otherwise the stored value is returned;
and after `set(k, v, ttl)` at time `now`, a read at time `t` returns `v`
when `t` is at most `now + ttl` and absent afterwards. -/
theorem cacheGet_lazy_expiration {α : Type} (store : List (String × CacheItem α))
    (key : String) (now : Int) :
    ((cacheGet store key now).1 = none ↔
      jsMapGet store key = none ∨
        ∃ item, jsMapGet store key = some item ∧ item.expiresAt < now) ∧
    (∀ item, jsMapGet store key = some item → item.expiresAt < now →
      (cacheGet store key now).2 = jsMapDelete store key) ∧
    (∀ item, jsMapGet store key = some item → ¬ item.expiresAt < now →
      (cacheGet store key now).1 = some item.data ∧
      (cacheGet store key now).2 = store) ∧
    (∀ (data : α) (ttl t : Int),
      (cacheGet (cacheSet store key data ttl now) key t).1 =
        if now + ttl < t then none else some data) := by
  refine ⟨?_, ?_, ?_, ?_⟩
  · unfold cacheGet
    cases hg : jsMapGet store key with
    | none => simp
    | some item =>
      by_cases he : item.expiresAt < now
      · simp [he]
      · simp [he]
  · intro item hg he
    unfold cacheGet
    rw [hg]
    simp [he]
  · intro item hg he
    unfold cacheGet
    rw [hg]
    simp [he]
  · intro data ttl t
    unfold cacheGet cacheSet
    rw [jsMapGet_jsMapSet_same]
    by_cases ht : now + ttl < t
    · simp [ht]
    · simp [ht]

/-- Witness for C5 at concrete inputs: a value set at time 0 with TTL 10 is
still returned at time 5 and is absent at time 20. -/
theorem cacheGet_lazy_expiration_witness :
    (cacheGet (cacheSet ([] : List (String × CacheItem String)) "k" "v" 10 0) "k" 5).1
      = some "v" ∧
    (cacheGet (cacheSet ([] : List (String × CacheItem String)) "k" "v" 10 0) "k" 20).1
      = none := by
  have h5 := (@cacheGet_lazy_expiration String [] "k" 0).2.2.2 "v" 10 5
  have h20 := (@cacheGet_lazy_expiration String [] "k" 0).2.2.2 "v" 10 20
  rw [if_neg (by norm_num)] at h5
  rw [if_pos (by norm_num)] at h20
  exact ⟨h5, h20⟩

/-! ## C6: fetch cache hit -/

/-- Claim C6 (amended): whenever the cache read for the key derived from
the URL yields a stored value that is non-empty (JS-truthy), the fetcher
returns that cached content and performs no network request. -/
theorem fetchICSFromURL_cache_hit (net : String → Option String)
    (store : List (String × CacheItem String)) (now : Int) (url : String)
    (ttl : Int) (c : String)
    (hc : (cacheGet store ("ics:" ++ url) now).1 = some c) (hne : c ≠ "") :
    (fetchICSFromURL net store now url ttl).result = some c ∧
    (fetchICSFromURL net store now url ttl).networkUsed = false := by
  simp only [fetchICSFromURL]
  rw [hc]
  simp [hne]

/-- Witness for the amended C6 at a concrete input: an unexpired non-empty
cached value is returned without a network call. -/
theorem fetchICSFromURL_cache_hit_witness :
    (cacheGet [("ics:u", ({ data := "c", expiresAt := 100 } : CacheItem String))]
        ("ics:" ++ "u") 0).1 = some "c" ∧
    ("c" : String) ≠ "" ∧
    (fetchICSFromURL (fun _ => some "X")
        [("ics:u", { data := "c", expiresAt := 100 })] 0 "u" 50).result = some "c" ∧
    (fetchICSFromURL (fun _ => some "X")
        [("ics:u", { data := "c", expiresAt := 100 })] 0 "u" 50).networkUsed = false := by
  refine ⟨by decide, by decide, ?_⟩
  exact fetchICSFromURL_cache_hit (fun _ => some "X")
    [("ics:u", { data := "c", expiresAt := 100 })] 0 "u" 50 "c" (by decide) (by decide)

/-- Claim C6 counterexample: with an unexpired cached *empty* string, the
cache read returns its stored value, yet `fetchICSFromURL` performs a
network request (JS truthiness of `if (cached)`) and returns the network
content instead of the cached one. -/
theorem fetchICSFromURL_empty_hit_counterexample :
    (cacheGet [("ics:u", ({ data := "", expiresAt := 100 } : CacheItem String))]
        ("ics:" ++ "u") 0).1 = some "" ∧
    (fetchICSFromURL (fun _ => some "X")
        [("ics:u", { data := "", expiresAt := 100 })] 0 "u" 50).networkUsed = true ∧
    (fetchICSFromURL (fun _ => some "X")
        [("ics:u", { data := "", expiresAt := 100 })] 0 "u" 50).result = some "X" := by
  refine ⟨by decide, by decide, by decide⟩

/-! ## C2: splitting multi-day events -/

theorem splitLoop_eq (event : CalendarEvent) (current endDay : Int) (dayIndex : Nat) :
    splitLoop event current endDay dayIndex =
      (List.range (endDay - current).toNat).map (fun i =>
        { event with uid := event.uid ++ "-day" ++ natStr (dayIndex + i),
                     date := formatDateString (current + i), endDate := none }) := by
  have H : ∀ (n : Nat) (cur : Int) (di : Nat), (endDay - cur).toNat = n →
      splitLoop event cur endDay di =
        (List.range n).map (fun i =>
          { event with uid := event.uid ++ "-day" ++ natStr (di + i),
                       date := formatDateString (cur + i), endDate := none }) := by
    intro n
    induction n with
    | zero =>
      intro cur di h
      rw [splitLoop_stop _ _ _ _ (by omega)]
      simp
    | succ n ih =>
      intro cur di h
      rw [splitLoop_step _ _ _ _ (by omega)]
      rw [List.range_succ_eq_map, List.map_cons]
      congr 1
      · simp
      · rw [ih (cur + 1) (di + 1) (by omega), List.map_map]
        apply List.map_congr_left
        intro i _
        simp only [Function.comp_apply, Nat.succ_eq_add_one]
        have h1 : di + 1 + i = di + (i + 1) := by omega
        have h2 : cur + 1 + (i : Int) = cur + ((i + 1 : Nat) : Int) := by push_cast; ring
        rw [h1, h2]
  exact H _ current dayIndex rfl

/-- Claim C2: if `endDate` is absent or equal to `date`, split returns
exactly the input event with `endDate` removed; and for a parseable `date`
and a parseable `endDate` strictly after it, split returns one event per
calendar day of the half-open range `[date, endDate)` in ascending order,
each dated at that day, without `endDate`, and with id
`` `${parent}-day${i}` `` for the zero-based day index `i`. -/
theorem splitMultiDayEvent_spec (e : CalendarEvent) :
    ((e.endDate = none ∨ e.endDate = some e.date) →
      splitMultiDayEvent e = [{ e with endDate := none }]) ∧
    (∀ ed s t, e.endDate = some ed → parseYMD e.date = some s →
      parseYMD ed = some t → s < t →
      splitMultiDayEvent e = (List.range (t - s).toNat).map (fun i =>
        { e with uid := e.uid ++ "-day" ++ natStr i,
                 date := formatDateString (s + i), endDate := none })) := by
  constructor
  · rintro (h | h) <;> simp [splitMultiDayEvent, h]
  · intro ed s t hed hs ht hlt
    have hed_ne : ed ≠ "" := by
      intro h
      rw [h] at ht
      exact Option.noConfusion ht
    have hdate_ne : e.date ≠ ed := by
      intro h
      rw [h, ht] at hs
      injection hs with hst
      omega
    simp only [splitMultiDayEvent, hed]
    rw [if_neg (by push_neg; exact ⟨hed_ne, hdate_ne⟩)]
    simp only [hs, ht]
    rw [splitLoop_eq]
    simp

/-- Witness for C2 at the spec's concrete example: `date=2024-10-01`,
`endDate=2024-10-04` yields exactly 3 events dated 10-01, 10-02, 10-03,
none carrying `endDate`. -/
theorem splitMultiDayEvent_spec_witness :
    specEventOct.endDate = some "2024-10-04" ∧
    parseYMD specEventOct.date = some 19997 ∧
    parseYMD "2024-10-04" = some 20000 ∧
    splitMultiDayEvent specEventOct =
      [{ uid := "u1-day0", summary := "国庆节", date := "2024-10-01", source := .icloud },
       { uid := "u1-day1", summary := "国庆节", date := "2024-10-02", source := .icloud },
       { uid := "u1-day2", summary := "国庆节", date := "2024-10-03", source := .icloud }] := by
  refine ⟨rfl, rfl, rfl, ?_⟩
  have h := (splitMultiDayEvent_spec specEventOct).2 "2024-10-04" 19997 20000
    rfl rfl rfl (by norm_num)
  rw [h]
  decide

/-! ## C10: frame of the split step -/

theorem splitLoop_mem_frame (event : CalendarEvent) (current endDay : Int)
    (dayIndex : Nat) (x : CalendarEvent)
    (hx : x ∈ splitLoop event current endDay dayIndex) :
    x.summary = event.summary ∧ x.description = event.description ∧
    x.isHoliday = event.isHoliday ∧ x.isWorkday = event.isWorkday ∧
    x.category = event.category ∧ x.source = event.source := by
  rw [splitLoop_eq] at hx
  obtain ⟨i, _, rfl⟩ := List.mem_map.1 hx
  simp

/-- Claim C10: every event produced by `splitMultiDayEvent` has the same
`summary`, `description`, `isHoliday`, `isWorkday`, `category` and `source`
as the input event (only `uid`, `date` and `endDate` may change). -/
theorem splitMultiDayEvent_frame (e x : CalendarEvent)
    (hx : x ∈ splitMultiDayEvent e) :
    x.summary = e.summary ∧ x.description = e.description ∧
    x.isHoliday = e.isHoliday ∧ x.isWorkday = e.isWorkday ∧
    x.category = e.category ∧ x.source = e.source := by
  rcases hed : e.endDate with _ | ed
  · simp only [splitMultiDayEvent, hed, List.mem_singleton] at hx
    subst hx
    simp
  · by_cases hif : ed = "" ∨ e.date = ed
    · simp only [splitMultiDayEvent, hed, if_pos hif, List.mem_singleton] at hx
      subst hx
      simp
    · rcases hs : parseYMD e.date with _ | s
      · simp only [splitMultiDayEvent, hed, if_neg hif, hs, List.not_mem_nil] at hx
      · rcases ht : parseYMD ed with _ | t
        · simp only [splitMultiDayEvent, hed, if_neg hif, hs, ht, List.not_mem_nil] at hx
        · simp only [splitMultiDayEvent, hed, if_neg hif, hs, ht] at hx
          exact splitLoop_mem_frame e s t 0 x hx

/-- Witness for C10 at a concrete input: a single-day event splits to
itself and all six frame fields are preserved. -/
theorem splitMultiDayEvent_frame_witness :
    ({ uid := "w", summary := "元旦", date := "2024-01-01",
       description := some "d", isHoliday := some true, category := some "c",
       source := .icloud } : CalendarEvent) ∈
      splitMultiDayEvent
        { uid := "w", summary := "元旦", date := "2024-01-01",
          description := some "d", isHoliday := some true, category := some "c",
          source := .icloud } ∧
    ({ uid := "w", summary := "元旦", date := "2024-01-01",
       description := some "d", isHoliday := some true, category := some "c",
       source := .icloud } : CalendarEvent).summary = "元旦" := by
  constructor
  · decide
  · exact (splitMultiDayEvent_frame
      { uid := "w", summary := "元旦", date := "2024-01-01",
        description := some "d", isHoliday := some true, category := some "c",
        source := .icloud }
      { uid := "w", summary := "元旦", date := "2024-01-01",
        description := some "d", isHoliday := some true, category := some "c",
        source := .icloud } (by decide)).1

/-! ## C8: no endDate after merging -/

theorem splitMultiDayEvent_endDate_none (e x : CalendarEvent)
    (hx : x ∈ splitMultiDayEvent e) : x.endDate = none := by
  rcases hed : e.endDate with _ | ed
  · simp only [splitMultiDayEvent, hed, List.mem_singleton] at hx
    subst hx
    rfl
  · by_cases hif : ed = "" ∨ e.date = ed
    · simp only [splitMultiDayEvent, hed, if_pos hif, List.mem_singleton] at hx
      subst hx
      rfl
    · rcases hs : parseYMD e.date with _ | s
      · simp only [splitMultiDayEvent, hed, if_neg hif, hs, List.not_mem_nil] at hx
      · rcases ht : parseYMD ed with _ | t
        · simp only [splitMultiDayEvent, hed, if_neg hif, hs, ht, List.not_mem_nil] at hx
        · simp only [splitMultiDayEvent, hed, if_neg hif, hs, ht, splitLoop_eq] at hx
          obtain ⟨i, _, rfl⟩ := List.mem_map.1 hx
          rfl

theorem insertEvents_nil (m : List (String × CalendarEvent)) :
    insertEvents m [] = m := rfl

theorem insertEvents_cons (m : List (String × CalendarEvent)) (e : CalendarEvent)
    (es : List CalendarEvent) :
    insertEvents m (e :: es) = insertEvents (jsMapSet m (eventKey e) e) es := rfl

theorem insertEvents_entry_cases {m : List (String × CalendarEvent)}
    {es : List CalendarEvent} {p : String × CalendarEvent}
    (h : p ∈ insertEvents m es) : p ∈ m ∨ (p.2 ∈ es ∧ p.1 = eventKey p.2) := by
  induction es generalizing m with
  | nil => exact Or.inl h
  | cons e es ih =>
    rw [insertEvents_cons] at h
    rcases ih h with hm | hes
    · rcases mem_of_mem_jsMapSet hm with h1 | h1
      · exact Or.inl h1
      · subst h1
        exact Or.inr ⟨List.mem_cons_self _ _, rfl⟩
    · exact Or.inr ⟨List.mem_cons_of_mem _ hes.1, hes.2⟩

/-- Every value of the merge map is a split upstream event or a converted
supplementary holiday. -/
theorem mergeEvents_mem_cases (lib : Int → Nat → Nat → Option String)
    (icloudEvents : List CalendarEvent) (startYear endYear : Int)
    (x : CalendarEvent) (hx : x ∈ mergeEvents lib icloudEvents startYear endYear) :
    (∃ h ∈ getExtraHolidaysForYears lib startYear endYear, x = holidayToEvent h) ∨
    (∃ e ∈ icloudEvents, x ∈ splitMultiDayEvent e) := by
  simp only [mergeEvents] at hx
  rw [(List.perm_insertionSort dateLe _).mem_iff] at hx
  obtain ⟨p, hp, rfl⟩ := List.mem_map.1 hx
  rcases insertEvents_entry_cases hp with hp1 | hp1
  · rcases insertEvents_entry_cases hp1 with hp2 | hp2
    · cases hp2
    · obtain ⟨hh, _⟩ := hp2
      obtain ⟨h, hh1, hh2⟩ := List.mem_map.1 hh
      exact Or.inl ⟨h, hh1, hh2.symm⟩
  · obtain ⟨hh, _⟩ := hp1
    obtain ⟨e, he1, he2⟩ := List.mem_flatMap.1 hh
    exact Or.inr ⟨e, he1, he2⟩

/-- Claim C8: no event in the output of `mergeEvents` carries an `endDate`:
both the split step and the supplementary-holiday conversion produce only
events without `endDate`, preserved through deduplication and sorting. -/
theorem mergeEvents_no_endDate (lib : Int → Nat → Nat → Option String)
    (icloudEvents : List CalendarEvent) (startYear endYear : Int)
    (x : CalendarEvent) (hx : x ∈ mergeEvents lib icloudEvents startYear endYear) :
    x.endDate = none := by
  rcases mergeEvents_mem_cases lib icloudEvents startYear endYear x hx with
    ⟨h, _, rfl⟩ | ⟨e, _, hmem⟩
  · rfl
  · exact splitMultiDayEvent_endDate_none e x hmem

/-- Witness for C8 at a concrete input: with an empty supplementary range
(start year after end year) a single upstream event survives the merge and
carries no `endDate`. -/
theorem mergeEvents_no_endDate_witness :
    ({ uid := "w", summary := "元旦", date := "2024-01-01", source := .icloud }
        : CalendarEvent) ∈
      mergeEvents (fun _ _ _ => none)
        [{ uid := "w", summary := "元旦", date := "2024-01-01", source := .icloud }]
        2025 2024 ∧
    ({ uid := "w", summary := "元旦", date := "2024-01-01", source := .icloud }
        : CalendarEvent).endDate = none := by
  have hext := getExtraHolidaysForYears_stop (fun _ _ _ => none) 2025 2024 (by norm_num)
  have hmem : ({ uid := "w", summary := "元旦", date := "2024-01-01", source := .icloud } : CalendarEvent) ∈
      mergeEvents (fun _ _ _ => none)
        [{ uid := "w", summary := "元旦", date := "2024-01-01", source := .icloud }]
        2025 2024 := by
    simp only [mergeEvents, hext]
    decide
  exact ⟨hmem, mergeEvents_no_endDate _ _ _ _ _ hmem⟩

/-! ## C9: uid uniqueness -/

theorem insertEvents_keys_nodup (m : List (String × CalendarEvent))
    (es : List CalendarEvent) (h : (m.map Prod.fst).Nodup) :
    ((insertEvents m es).map Prod.fst).Nodup := by
  induction es generalizing m with
  | nil => exact h
  | cons e es ih =>
    rw [insertEvents_cons]
    exact ih _ (keys_nodup_jsMapSet _ _ _ h)

theorem insertEvents_coherent (m : List (String × CalendarEvent))
    (es : List CalendarEvent) (h : ∀ p ∈ m, p.1 = eventKey p.2) :
    ∀ p ∈ insertEvents m es, p.1 = eventKey p.2 := by
  intro p hp
  rcases insertEvents_entry_cases hp with h1 | h1
  · exact h p h1
  · exact h1.2

/-- Claim C9 counterexample: two upstream events sharing a uid but with
different (date, title) keys both survive `mergeEvents`, so the output
contains two distinct events with the same id. -/
theorem mergeEvents_uid_unique_counterexample :
    mergeEvents (fun _ _ _ => none)
      [{ uid := "dup", summary := "甲", date := "2024-01-01", source := .icloud },
       { uid := "dup", summary := "乙", date := "2024-01-02", source := .icloud }]
      2025 2024 =
      [{ uid := "dup", summary := "甲", date := "2024-01-01", source := .icloud },
       { uid := "dup", summary := "乙", date := "2024-01-02", source := .icloud }] ∧
    ({ uid := "dup", summary := "甲", date := "2024-01-01", source := .icloud }
      : CalendarEvent) ≠
      { uid := "dup", summary := "乙", date := "2024-01-02", source := .icloud } ∧
    ({ uid := "dup", summary := "甲", date := "2024-01-01", source := .icloud }
      : CalendarEvent).uid =
      ({ uid := "dup", summary := "乙", date := "2024-01-02", source := .icloud }
      : CalendarEvent).uid := by
  have hext := getExtraHolidaysForYears_stop (fun _ _ _ => none) 2025 2024 (by norm_num)
  refine ⟨?_, by decide, rfl⟩
  simp only [mergeEvents, hext]
  decide

/-- Claim C9 (amended): if any two events entering the dedup map (split
upstream events and converted supplementary events) with different
(date, title) keys have different uids, then no two distinct events of the
merge output share a uid. -/
theorem mergeEvents_uid_unique (lib : Int → Nat → Nat → Option String)
    (icloudEvents : List CalendarEvent) (startYear endYear : Int)
    (H : ∀ e1 ∈ (getExtraHolidaysForYears lib startYear endYear).map holidayToEvent ++
        icloudEvents.flatMap splitMultiDayEvent,
      ∀ e2 ∈ (getExtraHolidaysForYears lib startYear endYear).map holidayToEvent ++
        icloudEvents.flatMap splitMultiDayEvent,
      eventKey e1 ≠ eventKey e2 → e1.uid ≠ e2.uid) :
    (mergeEvents lib icloudEvents startYear endYear).Pairwise
      (fun a b => a.uid ≠ b.uid) := by
  have hme : mergeEvents lib icloudEvents startYear endYear
      = ((insertEvents
            (insertEvents []
              ((getExtraHolidaysForYears lib startYear endYear).map holidayToEvent))
            (icloudEvents.flatMap splitMultiDayEvent)).map
          (fun p => p.2)).insertionSort dateLe := rfl
  rw [hme]
  refine (List.Perm.pairwise_iff (fun h => h.symm)
    (List.perm_insertionSort dateLe _)).2 ?_
  rw [List.pairwise_map]
  have hnd : ((insertEvents
      (insertEvents []
        ((getExtraHolidaysForYears lib startYear endYear).map holidayToEvent))
      (icloudEvents.flatMap splitMultiDayEvent)).map Prod.fst).Nodup :=
    insertEvents_keys_nodup _ _ (insertEvents_keys_nodup _ _ (by simp))
  have hco := insertEvents_coherent
    (insertEvents [] ((getExtraHolidaysForYears lib startYear endYear).map holidayToEvent))
    (icloudEvents.flatMap splitMultiDayEvent)
    (insertEvents_coherent [] _ (by simp))
  have hpk : (insertEvents
      (insertEvents []
        ((getExtraHolidaysForYears lib startYear endYear).map holidayToEvent))
      (icloudEvents.flatMap splitMultiDayEvent)).Pairwise
      (fun p q => p.1 ≠ q.1) := by
    rw [List.Nodup, List.pairwise_map] at hnd
    exact hnd
  refine hpk.imp_of_mem ?_
  intro p q hp hq hne
  have hpm : p.2 ∈ (getExtraHolidaysForYears lib startYear endYear).map holidayToEvent ++
      icloudEvents.flatMap splitMultiDayEvent := by
    rcases insertEvents_entry_cases hp with h1 | h1
    · rcases insertEvents_entry_cases h1 with h2 | h2
      · cases h2
      · exact List.mem_append.2 (Or.inl h2.1)
    · exact List.mem_append.2 (Or.inr h1.1)
  have hqm : q.2 ∈ (getExtraHolidaysForYears lib startYear endYear).map holidayToEvent ++
      icloudEvents.flatMap splitMultiDayEvent := by
    rcases insertEvents_entry_cases hq with h1 | h1
    · rcases insertEvents_entry_cases h1 with h2 | h2
      · cases h2
      · exact List.mem_append.2 (Or.inl h2.1)
    · exact List.mem_append.2 (Or.inr h1.1)
  refine H p.2 hpm q.2 hqm ?_
  rw [← hco p hp, ← hco q hq]
  exact hne

/-- Witness for the amended C9 at a concrete input: one upstream event and
an empty supplementary range; the entering events trivially have distinct
uids at distinct keys, and the output ids are pairwise distinct. -/
theorem mergeEvents_uid_unique_witness :
    (∀ e1 ∈ (getExtraHolidaysForYears (fun _ _ _ => none) 2025 2024).map holidayToEvent ++
        ([{ uid := "w", summary := "元旦", date := "2024-01-01", source := .icloud }]
          : List CalendarEvent).flatMap splitMultiDayEvent,
      ∀ e2 ∈ (getExtraHolidaysForYears (fun _ _ _ => none) 2025 2024).map holidayToEvent ++
        ([{ uid := "w", summary := "元旦", date := "2024-01-01", source := .icloud }]
          : List CalendarEvent).flatMap splitMultiDayEvent,
      eventKey e1 ≠ eventKey e2 → e1.uid ≠ e2.uid) ∧
    (mergeEvents (fun _ _ _ => none)
      [{ uid := "w", summary := "元旦", date := "2024-01-01", source := .icloud }]
      2025 2024).Pairwise (fun a b => a.uid ≠ b.uid) := by
  have hext := getExtraHolidaysForYears_stop (fun _ _ _ => none) 2025 2024 (by norm_num)
  have H : ∀ e1 ∈ (getExtraHolidaysForYears (fun _ _ _ => none) 2025 2024).map holidayToEvent ++
      ([{ uid := "w", summary := "元旦", date := "2024-01-01", source := .icloud }]
        : List CalendarEvent).flatMap splitMultiDayEvent,
      ∀ e2 ∈ (getExtraHolidaysForYears (fun _ _ _ => none) 2025 2024).map holidayToEvent ++
        ([{ uid := "w", summary := "元旦", date := "2024-01-01", source := .icloud }]
          : List CalendarEvent).flatMap splitMultiDayEvent,
      eventKey e1 ≠ eventKey e2 → e1.uid ≠ e2.uid := by
    rw [hext]
    decide
  exact ⟨H, mergeEvents_uid_unique (fun _ _ _ => none) _ 2025 2024 H⟩

/-! ## C1: upstream wins on key collision -/

theorem jsMapGet_insertEvents_of_forall_ne (m : List (String × CalendarEvent))
    (es : List CalendarEvent) (k : String) (h : ∀ e ∈ es, eventKey e ≠ k) :
    jsMapGet (insertEvents m es) k = jsMapGet m k := by
  induction es generalizing m with
  | nil => rfl
  | cons e es ih =>
    rw [insertEvents_cons, ih _ (fun x hx => h x (List.mem_cons_of_mem _ hx))]
    exact jsMapGet_jsMapSet_ne _ _ _ _ (h e (List.mem_cons_self _ _))

theorem jsMapGet_insertEvents_mem (es : List CalendarEvent) (k : String)
    (hk : ∃ e ∈ es, eventKey e = k) (m : List (String × CalendarEvent)) :
    ∃ v, jsMapGet (insertEvents m es) k = some v ∧ v ∈ es ∧ eventKey v = k := by
  induction es generalizing m with
  | nil => simp at hk
  | cons e es ih =>
    by_cases hlater : ∃ x ∈ es, eventKey x = k
    · obtain ⟨v, hv1, hv2, hv3⟩ := ih hlater (jsMapSet m (eventKey e) e)
      exact ⟨v, by rw [insertEvents_cons]; exact hv1,
        List.mem_cons_of_mem _ hv2, hv3⟩
    · have hek : eventKey e = k := by
        obtain ⟨x, hx, hxk⟩ := hk
        rcases List.mem_cons.1 hx with rfl | hx2
        · exact hxk
        · exact absurd ⟨x, hx2, hxk⟩ hlater
      refine ⟨e, ?_, List.mem_cons_self _ _, hek⟩
      rw [insertEvents_cons,
        jsMapGet_insertEvents_of_forall_ne _ _ _
          (fun x hx hxk => hlater ⟨x, hx, hxk⟩),
        hek]
      rw [← hek]
      exact jsMapGet_jsMapSet_same m (eventKey e) e

theorem mapValue_eq_of_key {m : List (String × CalendarEvent)}
    (hnd : (m.map Prod.fst).Nodup) (hco : ∀ p ∈ m, p.1 = eventKey p.2)
    (k : String) (v : CalendarEvent) (hv : jsMapGet m k = some v)
    (x : CalendarEvent) (hx : x ∈ m.map (fun p => p.2)) (hxk : eventKey x = k) :
    x = v := by
  obtain ⟨p, hp, rfl⟩ := List.mem_map.1 hx
  have h1 : p.1 = k := (hco p hp).trans hxk
  have h2 := jsMapGet_eq_of_mem hnd hp
  rw [h1, hv] at h2
  injection h2 with h3
  exact h3.symm

/-- Claim C1: whenever a split upstream event and a converted supplementary
holiday produce the same `(date, title)` dedup key, the output of
`mergeEvents` contains exactly one event with that key, and every output
event with that key is an upstream (`icloud`-sourced) one. -/
theorem mergeEvents_upstream_wins (lib : Int → Nat → Nat → Option String)
    (icloudEvents : List CalendarEvent) (startYear endYear : Int)
    (u s : CalendarEvent) (k : String)
    (hu : u ∈ icloudEvents.flatMap splitMultiDayEvent)
    (hs : s ∈ (getExtraHolidaysForYears lib startYear endYear).map holidayToEvent)
    (hku : eventKey u = k) (hks : eventKey s = k)
    (hsrc : ∀ e ∈ icloudEvents, e.source = EvSource.icloud) :
    ((mergeEvents lib icloudEvents startYear endYear).filter
        (fun e => eventKey e == k)).length = 1 ∧
    ∀ x ∈ mergeEvents lib icloudEvents startYear endYear,
      eventKey x = k → x.source = EvSource.icloud := by
  have hme : mergeEvents lib icloudEvents startYear endYear
      = ((insertEvents
            (insertEvents []
              ((getExtraHolidaysForYears lib startYear endYear).map holidayToEvent))
            (icloudEvents.flatMap splitMultiDayEvent)).map
          (fun p => p.2)).insertionSort dateLe := rfl
  have hnd : ((insertEvents
      (insertEvents []
        ((getExtraHolidaysForYears lib startYear endYear).map holidayToEvent))
      (icloudEvents.flatMap splitMultiDayEvent)).map Prod.fst).Nodup :=
    insertEvents_keys_nodup _ _ (insertEvents_keys_nodup _ _ (by simp))
  have hco := insertEvents_coherent
    (insertEvents []
      ((getExtraHolidaysForYears lib startYear endYear).map holidayToEvent))
    (icloudEvents.flatMap splitMultiDayEvent)
    (insertEvents_coherent [] _ (by simp))
  obtain ⟨v, hv1, hv2, hv3⟩ :=
    jsMapGet_insertEvents_mem (icloudEvents.flatMap splitMultiDayEvent) k
      ⟨u, hu, hku⟩
      (insertEvents [] ((getExtraHolidaysForYears lib startYear endYear).map holidayToEvent))
  have hvsrc : v.source = EvSource.icloud := by
    obtain ⟨e, he, hve⟩ := List.mem_flatMap.1 hv2
    rw [(splitMultiDayEvent_frame e v hve).2.2.2.2.2]
    exact hsrc e he
  constructor
  · rw [hme, ← List.countP_eq_length_filter,
      (List.perm_insertionSort dateLe _).countP_eq, List.countP_map]
    have hcong : List.countP
        ((fun e => eventKey e == k) ∘ (fun p : String × CalendarEvent => p.2))
        (insertEvents
          (insertEvents []
            ((getExtraHolidaysForYears lib startYear endYear).map holidayToEvent))
          (icloudEvents.flatMap splitMultiDayEvent))
        = List.countP (fun p => p.1 == k)
        (insertEvents
          (insertEvents []
            ((getExtraHolidaysForYears lib startYear endYear).map holidayToEvent))
          (icloudEvents.flatMap splitMultiDayEvent)) := by
      apply List.countP_congr
      intro p hp
      simp only [Function.comp_apply, beq_iff_eq]
      rw [hco p hp]
    rw [hcong]
    exact countP_key_one hnd hv1
  · intro x hx hxk
    rw [hme, (List.perm_insertionSort dateLe _).mem_iff] at hx
    rw [mapValue_eq_of_key hnd hco k v hv1 x hx hxk]
    exact hvsrc

/-- Witness for C1 at the spec's example: an upstream 情人节 event and the
2024 supplementary 情人节 holiday share the key `2024-02-14-情人节`; the
merge output has exactly one event with that key and it is upstream. -/
theorem mergeEvents_upstream_wins_witness :
    valentineUpstream ∈
      ([valentineUpstream] : List CalendarEvent).flatMap splitMultiDayEvent ∧
    valentineExtra ∈
      (getExtraHolidaysForYears noLunarLib 2024 2024).map holidayToEvent ∧
    eventKey valentineUpstream = "2024-02-14-情人节" ∧
    eventKey valentineExtra = "2024-02-14-情人节" ∧
    ((mergeEvents noLunarLib [valentineUpstream] 2024 2024).filter
        (fun e => eventKey e == "2024-02-14-情人节")).length = 1 ∧
    ∀ x ∈ mergeEvents noLunarLib [valentineUpstream] 2024 2024,
      eventKey x = "2024-02-14-情人节" → x.source = EvSource.icloud := by
  have hext : getExtraHolidaysForYears noLunarLib 2024 2024
      = getExtraHolidays noLunarLib 2024 := by
    rw [getExtraHolidaysForYears_step _ _ _ (by norm_num),
      getExtraHolidaysForYears_stop _ _ _ (by norm_num), List.append_nil]
  have hu : valentineUpstream ∈
      ([valentineUpstream] : List CalendarEvent).flatMap splitMultiDayEvent := by
    decide
  have hs : valentineExtra ∈
      (getExtraHolidaysForYears noLunarLib 2024 2024).map holidayToEvent := by
    rw [hext]
    decide
  have hsrc : ∀ e ∈ ([valentineUpstream] : List CalendarEvent),
      e.source = EvSource.icloud := by decide
  have h := mergeEvents_upstream_wins noLunarLib [valentineUpstream] 2024 2024
    valentineUpstream valentineExtra "2024-02-14-情人节" hu hs
    (by decide) (by decide) hsrc
  exact ⟨hu, hs, by decide, by decide, h.1, h.2⟩

/-! ## C3: serialize/parse round trip — line splitting -/

theorem data_append (s t : String) : (s ++ t).data = s.data ++ t.data := rfl

theorem mk_data (s : String) : (⟨s.data⟩ : String) = s := rfl

theorem splitLinesAux_crlf (rest acc : List Char) :
    splitLinesAux ('\r' :: '\n' :: rest) acc
      = (⟨acc.reverse⟩ : String) :: splitLinesAux rest [] := rfl

theorem splitLinesAux_cons_ne (c : Char) (rest acc : List Char) (hc : c ≠ '\r') :
    splitLinesAux (c :: rest) acc = splitLinesAux rest (c :: acc) := by
  rw [splitLinesAux.eq_def]
  split
  · rename_i heq
    simp at heq
  · rename_i rest2 heq
    injection heq with h1 _
    exact absurd h1 hc
  · rename_i hne heq
    injection heq with h1 h2
    rw [← h1, ← h2]

theorem splitLinesAux_no_cr (l : List Char) (acc : List Char)
    (h : ∀ c ∈ l, c ≠ '\r') :
    splitLinesAux l acc = [⟨acc.reverse ++ l⟩] := by
  induction l generalizing acc with
  | nil => simp [splitLinesAux]
  | cons c rest ih =>
    rw [splitLinesAux_cons_ne c rest acc (h c (List.mem_cons_self _ _)),
      ih (c :: acc) (fun x hx => h x (List.mem_cons_of_mem _ hx))]
    simp

theorem splitLinesAux_line (l rest acc : List Char) (h : ∀ c ∈ l, c ≠ '\r') :
    splitLinesAux (l ++ '\r' :: '\n' :: rest) acc
      = (⟨acc.reverse ++ l⟩ : String) :: splitLinesAux rest [] := by
  induction l generalizing acc with
  | nil => rw [List.nil_append, splitLinesAux_crlf]; simp
  | cons c l ih =>
    rw [List.cons_append, splitLinesAux_cons_ne _ _ _ (h c (List.mem_cons_self _ _)),
      ih _ (fun x hx => h x (List.mem_cons_of_mem _ hx))]
    simp

theorem noCRb_iff (s : String) : noCRb s = true ↔ ∀ c ∈ s.data, c ≠ '\r' := by
  simp [noCRb]

theorem splitCRLF_joinCRLF (ls : List String) (hne : ls ≠ [])
    (h : ∀ s ∈ ls, noCRb s = true) :
    splitCRLF (joinCRLF ls) = ls := by
  induction ls with
  | nil => cases hne rfl
  | cons s ls ih =>
    cases ls with
    | nil =>
      show splitLinesAux s.data [] = [s]
      rw [splitLinesAux_no_cr _ _ ((noCRb_iff s).1 (h s (List.mem_cons_self _ _)))]
      simp [mk_data]
    | cons s2 ls2 =>
      show splitLinesAux ((s ++ "\r\n" ++ joinCRLF (s2 :: ls2)).data) [] = _
      rw [show (s ++ "\r\n" ++ joinCRLF (s2 :: ls2)).data
            = s.data ++ '\r' :: '\n' :: (joinCRLF (s2 :: ls2)).data by
          rw [data_append, data_append]; simp]
      rw [splitLinesAux_line _ _ _ ((noCRb_iff s).1 (h s (List.mem_cons_self _ _)))]
      simp only [List.reverse_nil, List.nil_append, mk_data]
      exact congrArg (s :: ·)
        (ih (by simp) (fun x hx => h x (List.mem_cons_of_mem _ hx)))

/-! ## C3: collecting VEVENT blocks -/

theorem append_ne_of_head (p u q : String) (c cq : Char) (csp csq : List Char)
    (hp : p.data = c :: csp) (hq : q.data = cq :: csq) (hc : c ≠ cq) :
    p ++ u ≠ q := by
  intro he
  have h2 : (p ++ u).data = q.data := congrArg String.data he
  rw [data_append, hp, List.cons_append, hq] at h2
  injection h2 with h5 _
  exact hc h5

theorem eventBody_ne_END (stamp : String) (e : CalendarEvent) :
    ∀ l ∈ eventBody stamp e, l ≠ "END:VEVENT" := by
  have hEND : ("END:VEVENT" : String).data = 'E' :: ['N','D',':','V','E','V','E','N','T'] := rfl
  rw [eventBody]
  refine List.forall_mem_append.2 ⟨List.forall_mem_append.2 ⟨List.forall_mem_append.2
    ⟨List.forall_mem_append.2 ⟨List.forall_mem_append.2 ⟨?_, ?_⟩, ?_⟩, ?_⟩, ?_⟩, ?_⟩
  · intro l hl
    simp only [List.mem_cons, List.not_mem_nil, or_false] at hl
    rcases hl with rfl | rfl | rfl
    · exact append_ne_of_head _ _ _ 'U' 'E' _ _ rfl hEND (by decide)
    · exact append_ne_of_head _ _ _ 'D' 'E' _ _ rfl hEND (by decide)
    · exact append_ne_of_head _ _ _ 'D' 'E' _ _ rfl hEND (by decide)
  · rcases e.endDate with _ | ed
    · intro l hl
      simp at hl
    · intro l hl
      simp only [List.mem_singleton] at hl
      subst hl
      exact append_ne_of_head _ _ _ 'D' 'E' _ _ rfl hEND (by decide)
  · intro l hl
    simp only [List.mem_singleton] at hl
    subst hl
    exact append_ne_of_head _ _ _ 'S' 'E' _ _ rfl hEND (by decide)
  · rcases e.description with _ | d
    · intro l hl
      simp at hl
    · intro l hl
      simp only [List.mem_singleton] at hl
      subst hl
      exact append_ne_of_head _ _ _ 'D' 'E' _ _ rfl hEND (by decide)
  · intro l hl
    simp only [List.mem_cons, List.not_mem_nil, or_false] at hl
    rcases hl with rfl | rfl
    · decide
    · decide
  · cases truthy e.isHoliday
    · cases truthy e.isWorkday
      · intro l hl
        simp at hl
      · intro l hl
        simp at hl
        subst hl
        decide
    · intro l hl
      simp at hl
      subst hl
      decide

theorem collectVevents_skip (l : String) (rest : List String)
    (h : l ≠ "BEGIN:VEVENT") :
    collectVevents (l :: rest) none = collectVevents rest none := by
  simp [collectVevents, h]

theorem collectVevents_begin (rest : List String) :
    collectVevents ("BEGIN:VEVENT" :: rest) none = collectVevents rest (some []) := by
  simp [collectVevents]

theorem collectVevents_inblock (body rest acc : List String)
    (hb : ∀ l ∈ body, l ≠ "END:VEVENT") :
    collectVevents (body ++ "END:VEVENT" :: rest) (some acc)
      = (acc.reverse ++ body) :: collectVevents rest none := by
  induction body generalizing acc with
  | nil => simp [collectVevents]
  | cons l body ih =>
    rw [List.cons_append]
    have hl := hb l (List.mem_cons_self _ _)
    simp only [collectVevents, if_neg hl]
    rw [ih _ (fun x hx => hb x (List.mem_cons_of_mem _ hx))]
    simp

theorem collectVevents_eventLines (stamp : String) (e : CalendarEvent)
    (rest : List String) :
    collectVevents (eventLines stamp e ++ rest) none
      = eventBody stamp e :: collectVevents rest none := by
  simp only [eventLines, List.cons_append, List.append_assoc, List.singleton_append]
  rw [collectVevents_begin, collectVevents_inblock _ _ _ (eventBody_ne_END stamp e)]
  simp

theorem collectVevents_flat (stamp : String) (events : List CalendarEvent) :
    collectVevents (events.flatMap (eventLines stamp) ++ ["END:VCALENDAR"]) none
      = events.map (eventBody stamp) := by
  induction events with
  | nil =>
    rw [List.flatMap_nil, List.nil_append, collectVevents_skip _ _ (by decide)]
    rfl
  | cons e es ih =>
    rw [List.flatMap_cons, List.append_assoc, collectVevents_eventLines, ih,
      List.map_cons]

theorem collectVevents_generateICSLines (events : List CalendarEvent)
    (name stamp : String) :
    collectVevents (generateICSLines events name stamp) none
      = events.map (eventBody stamp) := by
  have hB : ("BEGIN:VEVENT" : String).data
      = 'B' :: ['E','G','I','N',':','V','E','V','E','N','T'] := rfl
  rw [generateICSLines]
  simp only [List.cons_append, List.nil_append]
  rw [collectVevents_skip _ _ (by decide), collectVevents_skip _ _ (by decide),
    collectVevents_skip _ _ (by decide), collectVevents_skip _ _ (by decide),
    collectVevents_skip _ _
      (append_ne_of_head _ _ _ 'X' 'B' _ _ rfl hB (by decide)),
    collectVevents_skip _ _ (by decide), collectVevents_skip _ _ (by decide),
    collectVevents_flat]

/-! ## C3: canonical date shapes -/

theorem canonicalShape_elim {s : String} (h : canonicalShape s = true) :
    ∃ y1 y2 y3 y4 m1 m2 d1 d2 : Char,
      s.data = [y1, y2, y3, y4, '-', m1, m2, '-', d1, d2] ∧
      y1.isDigit = true ∧ y2.isDigit = true ∧ y3.isDigit = true ∧
      y4.isDigit = true ∧ m1.isDigit = true ∧ m2.isDigit = true ∧
      d1.isDigit = true ∧ d2.isDigit = true := by
  unfold canonicalShape at h
  split at h
  · rename_i y1 y2 y3 y4 h1 m1 m2 h2 d1 d2 heq
    simp only [Bool.and_eq_true, beq_iff_eq] at h
    obtain ⟨⟨⟨⟨⟨⟨⟨⟨⟨hy1, hy2⟩, hy3⟩, hy4⟩, hh1⟩, hm1⟩, hm2⟩, hh2⟩, hd1⟩, hd2⟩ := h
    subst hh1
    subst hh2
    exact ⟨y1, y2, y3, y4, m1, m2, d1, d2, heq, hy1, hy2, hy3, hy4, hm1, hm2, hd1, hd2⟩
  · cases h

theorem digit_ne_dash {c : Char} (h : c.isDigit = true) : c ≠ '-' := by
  intro he
  subst he
  exact absurd h (by decide)

theorem digit_ne_cr {c : Char} (h : c.isDigit = true) : c ≠ '\r' := by
  intro he
  subst he
  exact absurd h (by decide)

theorem filter_cons_digit {c : Char} (h : c.isDigit = true) (l : List Char) :
    (c :: l).filter (fun c => c ≠ '-') = c :: l.filter (fun c => c ≠ '-') :=
  List.filter_cons_of_pos (by simp [digit_ne_dash h])

theorem filter_cons_dash (l : List Char) :
    ('-' :: l).filter (fun c => c ≠ '-') = l.filter (fun c => c ≠ '-') :=
  List.filter_cons_of_neg (by simp)

theorem reformat_canonical {s : String} (h : canonicalShape s = true) :
    formatICALDate (stripDashes s) = s := by
  obtain ⟨y1, y2, y3, y4, m1, m2, d1, d2, hdata,
    hy1, hy2, hy3, hy4, hm1, hm2, hd1, hd2⟩ := canonicalShape_elim h
  have hstrip : (stripDashes s).data = [y1, y2, y3, y4, m1, m2, d1, d2] := by
    show s.data.filter (fun c => c ≠ '-') = _
    rw [hdata, filter_cons_digit hy1, filter_cons_digit hy2, filter_cons_digit hy3,
      filter_cons_digit hy4, filter_cons_dash, filter_cons_digit hm1,
      filter_cons_digit hm2, filter_cons_dash, filter_cons_digit hd1,
      filter_cons_digit hd2, List.filter_nil]
  have h8 : (stripDashes s).data.length = 8 := by rw [hstrip]; rfl
  rw [formatICALDate, if_pos h8]
  apply String.ext
  rw [data_append, data_append, data_append, data_append]
  show (stripDashes s).data.take 4 ++ ['-'] ++ ((stripDashes s).data.drop 4).take 2
      ++ ['-'] ++ (stripDashes s).data.drop 6 = s.data
  rw [hstrip, hdata]
  rfl

theorem canonicalShape_noCRb {s : String} (h : canonicalShape s = true) :
    noCRb s = true := by
  obtain ⟨y1, y2, y3, y4, m1, m2, d1, d2, hdata,
    hy1, hy2, hy3, hy4, hm1, hm2, hd1, hd2⟩ := canonicalShape_elim h
  rw [noCRb, hdata]
  simp [digit_ne_cr, hy1, hy2, hy3, hy4, hm1, hm2, hd1, hd2]

/-! ## C3: destructuring the round-trip hypotheses -/

theorem eventOKb_parts {e : CalendarEvent} (h : eventOKb e = true) :
    canonicalShape e.date = true ∧
    (∀ ed, e.endDate = some ed → canonicalShape ed = true) ∧
    noCRb e.uid = true ∧ noCRb e.summary = true ∧
    (∀ d, e.description = some d → noCRb d = true) ∧
    (includesSub "（休）" e.summary = true → truthy e.isHoliday = true) ∧
    (includesSub "（班）" e.summary = true → truthy e.isWorkday = true) ∧
    ¬(truthy e.isHoliday = true ∧ truthy e.isWorkday = true) := by
  rw [eventOKb] at h
  simp only [Bool.and_eq_true, Bool.or_eq_true, Bool.not_eq_true',
    Bool.and_eq_false_iff, Bool.not_eq_true] at h
  obtain ⟨⟨⟨⟨⟨⟨⟨hsh, hshe⟩, hu⟩, hsum⟩, hd⟩, h1⟩, h2⟩, h3⟩ := h
  refine ⟨hsh, ?_, hu, hsum, ?_, ?_, ?_, ?_⟩
  · intro ed hed
    rw [hed] at hshe
    exact hshe
  · intro d hdd
    rw [hdd] at hd
    exact hd
  · intro hin
    rcases h1 with h1 | h1
    · rw [hin] at h1; cases h1
    · exact h1
  · intro hin
    rcases h2 with h2 | h2
    · rw [hin] at h2; cases h2
    · exact h2
  · intro ⟨hH, hW⟩
    rcases h3 with h3 | h3
    · rw [hH] at h3; cases h3
    · rw [hW] at h3; cases h3

/-! ## C3: parsing one serialized event block -/

theorem parseVevent_eventBody (stamp : String) (e : CalendarEvent) :
    parseVevent (eventBody stamp e) = some (reparsedEvent e) := by
  cases hH : truthy e.isHoliday <;> cases hW : truthy e.isWorkday <;>
    rcases hed : e.endDate with _ | ed <;> rcases hd : e.description with _ | d <;>
    (simp only [eventBody, reparsedEvent]; rw [hH, hW, hed, hd]; rfl)

/-! ## C3: all serialized lines are CR-free -/

theorem noCRb_append (s t : String) (hs : noCRb s = true) (ht : noCRb t = true) :
    noCRb (s ++ t) = true := by
  simp only [noCRb, data_append, List.all_append, Bool.and_eq_true]
  exact ⟨hs, ht⟩

theorem noCRb_stripDashes (s : String) (hs : noCRb s = true) :
    noCRb (stripDashes s) = true := by
  rw [noCRb, List.all_eq_true] at *
  intro c hc
  exact hs c (List.mem_of_mem_filter hc)

theorem eventBody_noCR (stamp : String) (e : CalendarEvent)
    (hstamp : noCRb stamp = true) (h : eventOKb e = true) :
    ∀ l ∈ eventBody stamp e, noCRb l = true := by
  obtain ⟨hsh, hshe, hu, hsum, hdesc, _, _, _⟩ := eventOKb_parts h
  rw [eventBody]
  refine List.forall_mem_append.2 ⟨List.forall_mem_append.2 ⟨List.forall_mem_append.2
    ⟨List.forall_mem_append.2 ⟨List.forall_mem_append.2 ⟨?_, ?_⟩, ?_⟩, ?_⟩, ?_⟩, ?_⟩
  · intro l hl
    simp only [List.mem_cons, List.not_mem_nil, or_false] at hl
    rcases hl with rfl | rfl | rfl
    · exact noCRb_append _ _ (by decide) hu
    · exact noCRb_append _ _ (by decide) hstamp
    · exact noCRb_append _ _ (by decide)
        (noCRb_stripDashes _ (canonicalShape_noCRb hsh))
  · rcases hed : e.endDate with _ | ed
    · intro l hl
      simp at hl
    · intro l hl
      simp only [List.mem_singleton] at hl
      subst hl
      exact noCRb_append _ _ (by decide)
        (noCRb_stripDashes _ (canonicalShape_noCRb (hshe ed hed)))
  · intro l hl
    simp only [List.mem_singleton] at hl
    subst hl
    exact noCRb_append _ _ (by decide) hsum
  · rcases hd : e.description with _ | d
    · intro l hl
      simp at hl
    · intro l hl
      simp only [List.mem_singleton] at hl
      subst hl
      exact noCRb_append _ _ (by decide) (hdesc d hd)
  · intro l hl
    simp only [List.mem_cons, List.not_mem_nil, or_false] at hl
    rcases hl with rfl | rfl
    · decide
    · decide
  · cases truthy e.isHoliday
    · cases truthy e.isWorkday
      · intro l hl
        simp at hl
      · intro l hl
        simp at hl
        subst hl
        decide
    · intro l hl
      simp at hl
      subst hl
      decide

theorem generateICSLines_noCR (events : List CalendarEvent) (name stamp : String)
    (hname : noCRb name = true) (hstamp : noCRb stamp = true)
    (hok : ∀ e ∈ events, eventOKb e = true) :
    ∀ l ∈ generateICSLines events name stamp, noCRb l = true := by
  rw [generateICSLines]
  refine List.forall_mem_append.2 ⟨List.forall_mem_append.2 ⟨?_, ?_⟩, ?_⟩
  · intro l hl
    simp only [List.mem_cons, List.not_mem_nil, or_false] at hl
    rcases hl with rfl | rfl | rfl | rfl | rfl | rfl | rfl
    · decide
    · decide
    · decide
    · decide
    · exact noCRb_append _ _ (by decide) hname
    · decide
    · decide
  · intro l hl
    obtain ⟨e, he, hle⟩ := List.mem_flatMap.1 hl
    rw [eventLines] at hle
    rcases List.mem_cons.1 hle with rfl | hle2
    · decide
    · rcases List.mem_append.1 hle2 with h3 | h3
      · exact eventBody_noCR stamp e hstamp (hok e he) l h3
      · simp only [List.mem_singleton] at h3
        subst h3
        decide
  · intro l hl
    simp only [List.mem_singleton] at hl
    subst hl
    decide

/-! ## C3: parse of generate, and tuple preservation -/

theorem parseICS_generateICS (events : List CalendarEvent) (name stamp : String)
    (hname : noCRb name = true) (hstamp : noCRb stamp = true)
    (hok : ∀ e ∈ events, eventOKb e = true) :
    parseICS (generateICS events name stamp) = events.map reparsedEvent := by
  show ((collectVevents
      (splitCRLF (joinCRLF (generateICSLines events name stamp))) none).filterMap
        parseVevent) = _
  rw [splitCRLF_joinCRLF _ (by rw [generateICSLines]; simp)
      (generateICSLines_noCR events name stamp hname hstamp hok),
    collectVevents_generateICSLines, List.filterMap_map]
  have hfm : (parseVevent ∘ eventBody stamp) = (some ∘ reparsedEvent) :=
    funext (fun e => parseVevent_eventBody stamp e)
  rw [hfm, List.filterMap_eq_map]

theorem splitLoop_map_tuple (a b : CalendarEvent) (s t : Int) (i : Nat)
    (hsum : a.summary = b.summary)
    (hH : truthy a.isHoliday = truthy b.isHoliday)
    (hW : truthy a.isWorkday = truthy b.isWorkday) :
    (splitLoop a s t i).map tupleOf = (splitLoop b s t i).map tupleOf := by
  rw [splitLoop_eq, splitLoop_eq, List.map_map, List.map_map]
  apply List.map_congr_left
  intro x _
  have hcomp : ∀ (c : CalendarEvent) (u dt : String),
      tupleOf { c with uid := u, date := dt, endDate := none }
        = (dt, c.summary, truthy c.isHoliday, truthy c.isWorkday) :=
    fun c u dt => rfl
  simp only [Function.comp_apply, hcomp]
  rw [hsum, hH, hW]

theorem split_map_tuple (a b : CalendarEvent) (hd : a.date = b.date)
    (he : a.endDate = b.endDate) (hsum : a.summary = b.summary)
    (hH : truthy a.isHoliday = truthy b.isHoliday)
    (hW : truthy a.isWorkday = truthy b.isWorkday) :
    (splitMultiDayEvent a).map tupleOf = (splitMultiDayEvent b).map tupleOf := by
  have hsingle : tupleOf { a with endDate := none }
      = tupleOf { b with endDate := none } := by
    show (a.date, a.summary, truthy a.isHoliday, truthy a.isWorkday) = _
    rw [hd, hsum, hH, hW]
    rfl
  rcases hed : a.endDate with _ | ed
  · have hed2 : b.endDate = none := by rw [← he, hed]
    simp only [splitMultiDayEvent, hed, hed2, List.map_cons, List.map_nil, hsingle]
  · have hed2 : b.endDate = some ed := by rw [← he, hed]
    by_cases hif : ed = "" ∨ a.date = ed
    · have hif2 : ed = "" ∨ b.date = ed := by rw [← hd]; exact hif
      simp only [splitMultiDayEvent, hed, hed2, if_pos hif, if_pos hif2,
        List.map_cons, List.map_nil, hsingle]
    · have hif2 : ¬ (ed = "" ∨ b.date = ed) := by rw [← hd]; exact hif
      simp only [splitMultiDayEvent, hed, hed2, if_neg hif, if_neg hif2, ← hd]
      rcases hp : parseYMD a.date with _ | s
      · simp only [hp]
      · rcases hq : parseYMD ed with _ | t
        · simp only [hp, hq]
        · simp only [hp, hq]
          exact splitLoop_map_tuple a b s t 0 hsum hH hW

theorem flatMap_split_tuple (events : List CalendarEvent)
    (hok : ∀ e ∈ events, eventOKb e = true) :
    events.flatMap (fun e => (splitMultiDayEvent (reparsedEvent e)).map tupleOf)
      = events.flatMap (fun e => (splitMultiDayEvent e).map tupleOf) := by
  induction events with
  | nil => rfl
  | cons e es ih =>
    rw [List.flatMap_cons, List.flatMap_cons,
      ih (fun x hx => hok x (List.mem_cons_of_mem _ hx))]
    congr 1
    obtain ⟨hsh, hshe, _, _, _, h1, h2, h3⟩ :=
      eventOKb_parts (hok e (List.mem_cons_self _ _))
    apply split_map_tuple
    · show formatICALDate (stripDashes e.date) = e.date
      exact reformat_canonical hsh
    · show e.endDate.map _ = e.endDate
      rcases hed : e.endDate with _ | ed
      · rfl
      · show some (formatICALDate (stripDashes ed)) = some ed
        rw [reformat_canonical (hshe ed hed)]
    · rfl
    · show truthy (some (truthy e.isHoliday || includesSub "（休）" e.summary))
        = truthy e.isHoliday
      cases hc : includesSub "（休）" e.summary
      · simp [truthy]
      · have hx := h1 hc
        simp only [truthy] at hx ⊢
        simp [hx]
    · show truthy (some ((!truthy e.isHoliday && truthy e.isWorkday)
          || includesSub "（班）" e.summary)) = truthy e.isWorkday
      cases hc : includesSub "（班）" e.summary
      · cases hh : truthy e.isHoliday
        · simp [truthy]
        · cases hw : truthy e.isWorkday
          · simp [truthy]
          · exact absurd ⟨hh, hw⟩ h3
      · have hx := h2 hc
        simp only [truthy] at hx ⊢
        simp [hx]

/-- Claim C3 (amended): for every event list with no duplicate
(date, title) pairs and every `endDate` at or after its `date` — and, as
the counterexample forces, canonical `YYYY-MM-DD` dates, CR-free text
fields, a CR-free calendar name and timestamp, day-off/makeup flags
consistent with the `（休）`/`（班）` title markers, and not both flags
set — parsing the output of `generateICS` and then splitting each parsed
event yields the same `(date, title, isDayOff, isMakeupWorkday)` tuples as
splitting the input events. -/
theorem roundtrip_tuples (events : List CalendarEvent) (name stamp : String)
    (hname : noCRb name = true) (hstamp : noCRb stamp = true)
    (hok : ∀ e ∈ events, eventOKb e = true)
    (hnodup : (events.map (fun e => (e.date, e.summary))).Nodup)
    (hend : ∀ e ∈ events,
      (match e.endDate with
       | some ed => charListLe e.date.data ed.data
       | none => true) = true) :
    ((parseICS (generateICS events name stamp)).flatMap splitMultiDayEvent).map
        tupleOf
      = ((events.flatMap splitMultiDayEvent).map tupleOf) := by
  rw [parseICS_generateICS events name stamp hname hstamp hok,
    List.map_flatMap, List.map_flatMap, List.flatMap_map]
  exact flatMap_split_tuple events hok

/-- Claim C3 counterexample: `markerEvent` satisfies the claim's
hypotheses (no duplicate (date,title) pairs, no `endDate`), yet the round
trip yields the tuple with `isDayOff = true`, which is not among the input
tuples: the parser re-derives the flag from the title. -/
theorem roundtrip_tuples_counterexample :
    (([markerEvent] : List CalendarEvent).map
      (fun e => (e.date, e.summary))).Nodup ∧
    (∀ e ∈ ([markerEvent] : List CalendarEvent), e.endDate = none) ∧
    ("2024-01-02", "测试（休）", true, false) ∈
      ((parseICS (generateICS [markerEvent] "X" "S")).flatMap
        splitMultiDayEvent).map tupleOf ∧
    ("2024-01-02", "测试（休）", true, false) ∉
      (([markerEvent] : List CalendarEvent).flatMap
        splitMultiDayEvent).map tupleOf := by
  refine ⟨by decide, by decide, by decide, by decide⟩

/-- Witness for the amended C3 at a concrete input: all hypotheses hold
and the round trip preserves the tuples. -/
theorem roundtrip_tuples_witness :
    noCRb "X" = true ∧ noCRb "20240101T000000Z" = true ∧
    (∀ e ∈ ([newYearEvent] : List CalendarEvent), eventOKb e = true) ∧
    (([newYearEvent] : List CalendarEvent).map
      (fun e => (e.date, e.summary))).Nodup ∧
    (∀ e ∈ ([newYearEvent] : List CalendarEvent),
      (match e.endDate with
       | some ed => charListLe e.date.data ed.data
       | none => true) = true) ∧
    ((parseICS (generateICS [newYearEvent] "X" "20240101T000000Z")).flatMap
        splitMultiDayEvent).map tupleOf
      = (([newYearEvent] : List CalendarEvent).flatMap splitMultiDayEvent).map
          tupleOf := by
  refine ⟨by decide, by decide, by decide, by decide, by decide, ?_⟩
  exact roundtrip_tuples [newYearEvent] "X" "20240101T000000Z"
    (by decide) (by decide) (by decide) (by decide) (by decide)

end WebChinaHolidays
